import Mathlib

set_option maxRecDepth 2000

/-!
Verification of the awsdynamodb docstore codec (gocloud.dev fork).

This file shallowly embeds the codec of `docstore/awsdynamodb/codec.go`
(the tree-based `codec` revision) together with the dual-format lazy
`decoder` revision kept in the repository, and proves properties about
the embedding.

Modelling conventions:
  * Go `float64` values are modelled by their exact rational values
    (`ℚ`); the binary64 rounding performed by `strconv.ParseFloat` is
    modelled explicitly by `roundF`, round-to-nearest with ties to even
    over exponents ≥ -1074 (subnormals included).  Signed zero, NaN and
    the infinities stay outside the model.
  * Go integer conversions with implementation-defined overflow follow
    the amd64 behaviour (`cvttsd2si` produces `math.MinInt64`).
  * Go maps are modelled by association lists; iteration order is the
    list order (Go's randomized order is determinized).
  * `time.Time` is modelled by its broken-down wall-clock fields plus a
    UTC offset in minutes, which is exactly the information carried by
    an RFC3339Nano string.
  * Go panics (failed type assertions, nil dereference) are modelled by
    the distinguished result `GoErr.panicked`.
-/

/-! ### Decimal digit strings -/

/-- Is the character an ASCII decimal digit? -/
def isDigitCh (c : Char) : Bool := 48 ≤ c.toNat && c.toNat ≤ 57

/-- Numeric value of an ASCII digit character. -/
def digitVal (c : Char) : ℕ := c.toNat - 48

/-- ASCII digit character of a digit value. -/
def digitCh (d : ℕ) : Char := Char.ofNat (48 + d)

/-- Fuel-driven little-endian base-10 digits (a kernel-computable form of
`Nat.digits 10`). -/
def digitsFuel : ℕ → ℕ → List ℕ
  | 0, _ => []
  | fuel + 1, n => if n = 0 then [] else n % 10 :: digitsFuel fuel (n / 10)

/-- Little-endian base-10 digits of a natural number. -/
def natDigitsLE (n : ℕ) : List ℕ := digitsFuel n n

theorem digitsFuel_eq (fuel n : ℕ) (h : n ≤ fuel) : digitsFuel fuel n = Nat.digits 10 n := by
  induction fuel generalizing n with
  | zero =>
    have h0 : n = 0 := by omega
    subst h0
    simp [digitsFuel]
  | succ f ih =>
    unfold digitsFuel
    by_cases h0 : n = 0
    · subst h0; simp
    · rw [if_neg h0, ih (n / 10) (by omega),
        Nat.digits_def' (by norm_num : (1:ℕ) < 10) (Nat.pos_of_ne_zero h0)]

theorem natDigitsLE_eq (n : ℕ) : natDigitsLE n = Nat.digits 10 n :=
  digitsFuel_eq n n le_rfl

/-- Big-endian digit list of a natural number (`0` renders as `[0]`),
mirroring `strconv.FormatUint`. -/
def natDigitsBE (n : ℕ) : List ℕ :=
  if n = 0 then [0] else (natDigitsLE n).reverse

/-- Value of a big-endian digit list. -/
def valOfDigitsBE (ds : List ℕ) : ℕ := ds.foldl (fun a d => 10 * a + d) 0

/-- Character rendering of a big-endian digit list. -/
def charsOfDigitsBE (ds : List ℕ) : List Char := ds.map digitCh

/-- `strconv.FormatUint(n, 10)` as a character list. -/
def renderNat (n : ℕ) : List Char := charsOfDigitsBE (natDigitsBE n)

/-- `strconv.FormatInt(i, 10)` as a character list. -/
def renderInt (i : ℤ) : List Char :=
  if i < 0 then '-' :: renderNat i.natAbs else renderNat i.natAbs

/-- Longest digit prefix (as digit values) and the remaining characters. -/
def takeDigits : List Char → List ℕ × List Char
  | [] => ([], [])
  | c :: cs =>
    if isDigitCh c then
      let r := takeDigits cs
      (digitVal c :: r.1, r.2)
    else ([], c :: cs)

theorem digitCh_props : ∀ d < 10, isDigitCh (digitCh d) = true ∧ digitVal (digitCh d) = d := by
  decide

theorem natDigitsBE_lt (n : ℕ) : ∀ d ∈ natDigitsBE n, d < 10 := by
  intro d hd
  unfold natDigitsBE at hd
  split at hd
  · simp only [List.mem_singleton] at hd; omega
  · rw [natDigitsLE_eq] at hd
    exact Nat.digits_lt_base (by norm_num) (List.mem_reverse.mp hd)

theorem valOfDigitsBE_foldl_acc (ys : List ℕ) (a : ℕ) :
    ys.foldl (fun a d => 10 * a + d) a = a * 10 ^ ys.length + valOfDigitsBE ys := by
  induction ys generalizing a with
  | nil => simp [valOfDigitsBE]
  | cons y ys ih =>
    simp only [List.foldl_cons, List.length_cons, valOfDigitsBE]
    rw [ih (10 * a + y), ih (10 * 0 + y)]
    ring

theorem valOfDigitsBE_append (xs ys : List ℕ) :
    valOfDigitsBE (xs ++ ys) = valOfDigitsBE xs * 10 ^ ys.length + valOfDigitsBE ys := by
  unfold valOfDigitsBE
  rw [List.foldl_append, valOfDigitsBE_foldl_acc]
  rfl

theorem valOfDigitsBE_natDigitsBE (n : ℕ) : valOfDigitsBE (natDigitsBE n) = n := by
  unfold natDigitsBE
  split
  · simp [valOfDigitsBE]; omega
  · unfold valOfDigitsBE
    rw [natDigitsLE_eq, List.foldl_reverse]
    have h : ∀ l : List ℕ, l.foldr (fun x y => 10 * y + x) 0 = Nat.ofDigits 10 l := by
      intro l
      induction l with
      | nil => simp [Nat.ofDigits]
      | cons d l ih => simp [Nat.ofDigits, ih]; ring
    rw [h, Nat.ofDigits_digits]

theorem takeDigits_eq (ds : List ℕ) (rest : List Char)
    (hds : ∀ d ∈ ds, d < 10)
    (hrest : ∀ c, rest.head? = some c → isDigitCh c = false) :
    takeDigits (charsOfDigitsBE ds ++ rest) = (ds, rest) := by
  induction ds with
  | nil =>
    simp only [charsOfDigitsBE, List.map_nil, List.nil_append]
    cases rest with
    | nil => rfl
    | cons c cs =>
      have := hrest c rfl
      simp [takeDigits, this]
  | cons d ds ih =>
    have hd : d < 10 := hds d (by simp)
    obtain ⟨h1, h2⟩ := digitCh_props d hd
    have hrec := ih (fun x hx => hds x (by simp [hx]))
    simp only [charsOfDigitsBE, List.map_cons, List.cons_append, takeDigits, h1, if_true]
    simp only [charsOfDigitsBE] at hrec
    rw [show (List.map digitCh ds).append rest = List.map digitCh ds ++ rest from rfl, hrec, h2]

/-! ### Binary64 rounding model (`strconv.ParseFloat`'s rounding) -/

/-- Round a rational to the nearest integer, ties to even. -/
def roundHalfEven (x : ℚ) : ℤ :=
  let n := ⌊x⌋
  let r := x - n
  if r < 1/2 then n
  else if 1/2 < r then n + 1
  else if Even n then n else n + 1

/-- For `q > 0`, the exponent `e` with `2 ^ e ≤ q < 2 ^ (e + 1)`. -/
def log2Fuel : ℕ → ℕ → ℕ
  | 0, _ => 0
  | fuel + 1, n => if 2 ≤ n then log2Fuel fuel (n / 2) + 1 else 0

/-- Kernel-computable form of `Nat.log 2`. -/
def natLog2 (n : ℕ) : ℕ := log2Fuel n n

/-- Binary (fuel-driven) natural exponentiation: the unary recursions of
`Nat.pow` and `zpow` are linear in the exponent, too deep for the
evaluator on exponents such as 1074. -/
def npowBin : ℕ → ℕ → ℕ → ℕ
  | 0, _, _ => 1
  | fuel + 1, b, e =>
    if e = 0 then 1
    else
      let h := npowBin fuel (b * b) (e / 2)
      if e % 2 = 1 then b * h else h

/-- `b ^ e` on `ℕ`, by binary exponentiation. -/
def powN (b e : ℕ) : ℕ := npowBin e b e

theorem npowBin_eq (fuel b e : ℕ) (h : e ≤ fuel) : npowBin fuel b e = b ^ e := by
  induction fuel generalizing b e with
  | zero =>
    have h0 : e = 0 := by omega
    subst h0
    simp [npowBin]
  | succ f ih =>
    unfold npowBin
    by_cases h0 : e = 0
    · subst h0
      simp
    · rw [if_neg h0]
      have hrec : npowBin f (b * b) (e / 2) = (b * b) ^ (e / 2) := ih (b * b) (e / 2) (by omega)
      have hsq : (b * b) ^ (e / 2) = b ^ (2 * (e / 2)) := by
        rw [pow_mul]
        ring_nf
      by_cases h1 : e % 2 = 1
      · rw [if_pos h1]
        simp only [hrec, hsq]
        rw [show b * b ^ (2 * (e / 2)) = b ^ (2 * (e / 2) + 1) by rw [pow_succ]; ring]
        congr 1
        omega
      · rw [if_neg h1]
        simp only [hrec, hsq]
        congr 1
        omega

theorem powN_eq (b e : ℕ) : powN b e = b ^ e := npowBin_eq e b e le_rfl

/-- Integer powers of a natural base in `ℚ`. -/
def powQ (b : ℕ) (e : ℤ) : ℚ :=
  if 0 ≤ e then ((powN b e.toNat : ℕ) : ℚ) else ((powN b (-e).toNat : ℕ) : ℚ)⁻¹

theorem powQ_eq (b : ℕ) (e : ℤ) : powQ b e = (b : ℚ) ^ e := by
  unfold powQ
  rw [powN_eq, powN_eq]
  split
  · next h =>
    rw [Nat.cast_pow, ← zpow_natCast ((b : ℚ)), Int.toNat_of_nonneg h]
  · next h =>
    rw [Nat.cast_pow, ← zpow_natCast ((b : ℚ)), Int.toNat_of_nonneg (by omega : (0:ℤ) ≤ -e),
      ← zpow_neg, neg_neg]

theorem pow2Q_eq (e : ℤ) : powQ 2 e = (2 : ℚ) ^ e := by
  rw [powQ_eq]
  norm_num

theorem pow10Q_eq (e : ℤ) : powQ 10 e = (10 : ℚ) ^ e := by
  rw [powQ_eq]
  norm_num

def floorLog2 (q : ℚ) : ℤ :=
  let k : ℤ := (natLog2 q.num.natAbs : ℤ) - (natLog2 q.den : ℤ)
  if q < powQ 2 k then k - 1 else k

theorem log2Fuel_eq (fuel n : ℕ) (h : n ≤ fuel) : log2Fuel fuel n = Nat.log 2 n := by
  induction fuel generalizing n with
  | zero =>
    have h0 : n = 0 := by omega
    subst h0
    simp [log2Fuel]
  | succ f ih =>
    unfold log2Fuel
    by_cases h2 : 2 ≤ n
    · rw [if_pos h2, ih (n / 2) (by omega), Nat.log_div_base 2 n]
      have hp : 0 < Nat.log 2 n := Nat.log_pos (by norm_num) h2
      omega
    · rw [if_neg h2]
      symm
      apply Nat.log_eq_zero_iff.mpr
      left
      omega

theorem natLog2_eq (n : ℕ) : natLog2 n = Nat.log 2 n := log2Fuel_eq n n le_rfl

/-- Absolute value on `ℚ` by an explicit sign test (the `|·|` instance
chain does not evaluate well inside the kernel). -/
def qAbs (q : ℚ) : ℚ := if q < 0 then -q else q

theorem qAbs_eq (q : ℚ) : qAbs q = |q| := by
  unfold qAbs
  split
  · next h => rw [abs_of_neg h]
  · next h => rw [abs_of_nonneg (not_lt.mp h)]

/-- Round-to-nearest (ties to even) over the binary64 grid: precision 53
bits, exponents down to `2 ^ (-1074)` (subnormals); overflow is *not*
clamped here (the caller checks the `2 ^ 1024` bound). -/
def roundF (q : ℚ) : ℚ :=
  if q = 0 then 0
  else (if q < 0 then -1 else 1) *
    (roundHalfEven (qAbs q / powQ 2 (max (floorLog2 (qAbs q) - 52) (-1074 : ℤ))) : ℚ) *
    powQ 2 (max (floorLog2 (qAbs q) - 52) (-1074 : ℤ))

theorem roundHalfEven_intCast (k : ℤ) : roundHalfEven (k : ℚ) = k := by
  unfold roundHalfEven
  simp only [Int.floor_intCast, sub_self]
  norm_num

theorem roundHalfEven_eq_of_eq_intCast (x : ℚ) (k : ℤ) (h : x = (k : ℚ)) :
    roundHalfEven x = k := by rw [h, roundHalfEven_intCast]


theorem floorLog2_correct (q : ℚ) (hq : 0 < q) :
    2 ^ floorLog2 q ≤ q ∧ q < 2 ^ (floorLog2 q + 1) := by
  have hnum : 0 < q.num := Rat.num_pos.mpr hq
  set n : ℕ := q.num.natAbs with hn
  set d : ℕ := q.den with hd
  have hn0 : n ≠ 0 := by
    simp only [hn]
    exact Int.natAbs_ne_zero.mpr (by omega)
  have hd0 : d ≠ 0 := q.den_nz
  have h1 : 2 ^ natLog2 n ≤ n := by
    rw [natLog2_eq]; exact Nat.pow_log_le_self 2 hn0
  have h2 : n < 2 ^ (natLog2 n + 1) := by
    rw [natLog2_eq]; exact Nat.lt_pow_succ_log_self (by norm_num) n
  have h3 : 2 ^ natLog2 d ≤ d := by
    rw [natLog2_eq]; exact Nat.pow_log_le_self 2 hd0
  have h4 : d < 2 ^ (natLog2 d + 1) := by
    rw [natLog2_eq]; exact Nat.lt_pow_succ_log_self (by norm_num) d
  set ln := natLog2 n
  set ld := natLog2 d
  have h5 : (n : ℚ) = (q.num : ℚ) := by
    have h6 : (n : ℤ) = q.num := Int.natAbs_of_nonneg (le_of_lt hnum)
    exact_mod_cast congrArg (fun z : ℤ => (z : ℚ)) h6
  have hqnd : q = (n : ℚ) / (d : ℚ) := by
    rw [h5, hd]
    exact (Rat.num_div_den q).symm
  have hdpos : (0 : ℚ) < (d : ℚ) := by
    have h7 : 0 < d := Nat.pos_of_ne_zero hd0
    exact_mod_cast h7
  have q1 : (2 : ℚ) ^ (ln : ℤ) ≤ (n : ℚ) := by
    rw [zpow_natCast]; exact_mod_cast h1
  have q2 : (n : ℚ) < 2 ^ ((ln : ℤ) + 1) := by
    rw [show ((ln : ℤ) + 1) = ((ln + 1 : ℕ) : ℤ) by push_cast; ring, zpow_natCast]
    exact_mod_cast h2
  have q3 : (2 : ℚ) ^ (ld : ℤ) ≤ (d : ℚ) := by
    rw [zpow_natCast]; exact_mod_cast h3
  have q4 : (d : ℚ) < 2 ^ ((ld : ℤ) + 1) := by
    rw [show ((ld : ℤ) + 1) = ((ld + 1 : ℕ) : ℤ) by push_cast; ring, zpow_natCast]
    exact_mod_cast h4
  have hlow : (2 : ℚ) ^ ((ln : ℤ) - (ld : ℤ) - 1) ≤ q := by
    rw [hqnd, le_div_iff₀ hdpos]
    calc (2 : ℚ) ^ ((ln : ℤ) - (ld : ℤ) - 1) * (d : ℚ)
        ≤ (2 : ℚ) ^ ((ln : ℤ) - (ld : ℤ) - 1) * 2 ^ ((ld : ℤ) + 1) := by
          apply mul_le_mul_of_nonneg_left (le_of_lt q4) (by positivity)
      _ = 2 ^ (ln : ℤ) := by
          rw [← zpow_add₀ (by norm_num : (2:ℚ) ≠ 0)]
          ring_nf
      _ ≤ (n : ℚ) := q1
  have hhigh : q < 2 ^ ((ln : ℤ) - (ld : ℤ) + 1) := by
    rw [hqnd, div_lt_iff₀ hdpos]
    calc (n : ℚ) < 2 ^ ((ln : ℤ) + 1) := q2
      _ = 2 ^ ((ln : ℤ) - (ld : ℤ) + 1) * 2 ^ (ld : ℤ) := by
          rw [← zpow_add₀ (by norm_num : (2:ℚ) ≠ 0)]
          ring_nf
      _ ≤ 2 ^ ((ln : ℤ) - (ld : ℤ) + 1) * (d : ℚ) := by
          apply mul_le_mul_of_nonneg_left q3 (by positivity)
  have hfl0 : floorLog2 q =
      if q < powQ 2 ((ln : ℤ) - (ld : ℤ)) then (ln : ℤ) - (ld : ℤ) - 1
      else (ln : ℤ) - (ld : ℤ) := rfl
  have hfl : floorLog2 q =
      if q < 2 ^ ((ln : ℤ) - (ld : ℤ)) then (ln : ℤ) - (ld : ℤ) - 1
      else (ln : ℤ) - (ld : ℤ) := by rw [hfl0, pow2Q_eq]
  rw [hfl]
  by_cases h : q < 2 ^ ((ln : ℤ) - (ld : ℤ))
  · rw [if_pos h]
    refine ⟨hlow, ?_⟩
    have h8 : (ln : ℤ) - (ld : ℤ) - 1 + 1 = (ln : ℤ) - (ld : ℤ) := by ring
    rwa [h8]
  · rw [if_neg h]
    exact ⟨not_lt.mp h, hhigh⟩

theorem roundF_exact (q : ℚ) (hq : q ≠ 0) (m' : ℤ)
    (h : |q| / 2 ^ max (floorLog2 |q| - 52) (-1074 : ℤ) = (m' : ℚ)) :
    roundF q = q := by
  unfold roundF
  rw [if_neg hq]
  simp only [pow2Q_eq, qAbs_eq]
  rw [roundHalfEven_eq_of_eq_intCast _ m' h]
  have hpow : (2 : ℚ) ^ max (floorLog2 |q| - 52) (-1074 : ℤ) ≠ 0 := by positivity
  have hcancel : ((m' : ℚ)) * 2 ^ max (floorLog2 |q| - 52) (-1074 : ℤ) = |q| := by
    rw [← h, div_mul_cancel₀ _ hpow]
  rcases lt_or_gt_of_ne hq with hneg | hpos
  · rw [if_pos hneg, mul_assoc, hcancel, abs_of_neg hneg]; ring
  · rw [if_neg (not_lt.mpr (le_of_lt hpos)), mul_assoc, hcancel, abs_of_pos hpos]; ring

theorem abs_intCast_rat (z : ℤ) : |(z : ℚ)| = ((|z| : ℤ) : ℚ) := by
  push_cast
  rfl

theorem floorLog2_intCast_bounds (z : ℤ) (hz : z ≠ 0) (hle : |z| ≤ 2 ^ 53) :
    0 ≤ floorLog2 |(z : ℚ)| ∧ floorLog2 |(z : ℚ)| ≤ 53 := by
  have hpos : (0 : ℚ) < |(z : ℚ)| := by
    simp only [abs_pos, ne_eq, Int.cast_eq_zero]
    exact hz
  obtain ⟨hlo, hhi⟩ := floorLog2_correct _ hpos
  have h1 : (1 : ℚ) ≤ |(z : ℚ)| := by
    rw [abs_intCast_rat]
    exact_mod_cast Int.one_le_abs (by omega)
  have h2 : |(z : ℚ)| ≤ 2 ^ (53 : ℤ) := by
    rw [abs_intCast_rat]
    norm_num
    exact_mod_cast hle
  constructor
  · by_contra hneg
    push_neg at hneg
    have h3 : floorLog2 |(z : ℚ)| + 1 ≤ 0 := by omega
    have hle1 : (2 : ℚ) ^ (floorLog2 |(z : ℚ)| + 1) ≤ 2 ^ (0 : ℤ) :=
      zpow_le_zpow_right₀ (by norm_num) h3
    simp only [zpow_zero] at hle1
    linarith
  · by_contra hgt
    push_neg at hgt
    have h54 : (54 : ℤ) ≤ floorLog2 |(z : ℚ)| := by omega
    have h5 : (2 : ℚ) ^ (54 : ℤ) ≤ 2 ^ floorLog2 |(z : ℚ)| :=
      zpow_le_zpow_right₀ (by norm_num) h54
    have h3 : (2 : ℚ) ^ (54 : ℤ) ≤ |(z : ℚ)| := le_trans h5 hlo
    have h4 : (2 : ℚ) ^ (53 : ℤ) < 2 ^ (54 : ℤ) := by
      apply zpow_lt_zpow_right₀ (by norm_num)
      omega
    linarith

theorem roundF_int_small (z : ℤ) (hle : |z| ≤ 2 ^ 53) : roundF (z : ℚ) = (z : ℚ) := by
  by_cases hz : z = 0
  · subst hz
    simp [roundF]
  have hz' : (z : ℚ) ≠ 0 := Int.cast_ne_zero.mpr hz
  obtain ⟨hE0, hE53⟩ := floorLog2_intCast_bounds z hz hle
  set E := floorLog2 |(z : ℚ)| with hE
  have hmax : max (E - 52) (-1074 : ℤ) = E - 52 := by omega
  have hpos : (0 : ℚ) < |(z : ℚ)| := by
    simp only [abs_pos, ne_eq, Int.cast_eq_zero]; exact hz
  obtain ⟨hlo, hhi⟩ := floorLog2_correct _ hpos
  rcases le_or_lt E 52 with hcase | hcase
  · -- e ≤ 0, the scaled value |z| * 2 ^ (52 - E) is an integer
    apply roundF_exact _ hz' (|z| * 2 ^ (52 - E).toNat)
    rw [hmax]
    have he : E - 52 = -(((52 - E).toNat : ℤ)) := by omega
    have ht : (2 : ℚ) ^ (E - 52) = ((2 : ℚ) ^ ((52 - E).toNat))⁻¹ := by
      rw [he, zpow_neg, zpow_natCast]
    rw [ht, div_eq_mul_inv, inv_inv]
    push_cast
    ring
  · -- E = 53 forces |z| = 2 ^ 53 exactly
    have hE53' : E = 53 := by omega
    have habs : |(z : ℚ)| = 2 ^ (53 : ℤ) := by
      have h2 : |(z : ℚ)| ≤ 2 ^ (53 : ℤ) := by
        rw [abs_intCast_rat]
        norm_num
        exact_mod_cast hle
      have h1 : (2 : ℚ) ^ (53 : ℤ) ≤ |(z : ℚ)| := by
        rw [← hE53']; exact hlo
      linarith
    apply roundF_exact _ hz' (2 ^ 52)
    rw [hmax, hE53', habs]
    rw [← zpow_sub₀ (by norm_num : (2:ℚ) ≠ 0)]
    push_cast
    norm_num

theorem floorLog2_nonneg (q : ℚ) (h1 : (1 : ℚ) ≤ q) : 0 ≤ floorLog2 q := by
  obtain ⟨hlo, hhi⟩ := floorLog2_correct q (lt_of_lt_of_le one_pos h1)
  by_contra hneg
  push_neg at hneg
  have h3 : floorLog2 q + 1 ≤ 0 := by omega
  have hle1 : (2 : ℚ) ^ (floorLog2 q + 1) ≤ 2 ^ (0 : ℤ) :=
    zpow_le_zpow_right₀ (by norm_num) h3
  simp only [zpow_zero] at hle1
  linarith

theorem one_le_abs_cast (z : ℤ) (hz : z ≠ 0) : (1 : ℚ) ≤ |(z : ℚ)| := by
  rw [abs_intCast_rat]
  exact_mod_cast Int.one_le_abs (by omega)

theorem roundF_int_exact_le52 (z : ℤ) (hz : z ≠ 0)
    (hE : floorLog2 |(z : ℚ)| ≤ 52) : roundF (z : ℚ) = (z : ℚ) := by
  have hz' : (z : ℚ) ≠ 0 := Int.cast_ne_zero.mpr hz
  have hE0 : 0 ≤ floorLog2 |(z : ℚ)| := floorLog2_nonneg _ (one_le_abs_cast z hz)
  set E := floorLog2 |(z : ℚ)| with hEdef
  have hmax : max (E - 52) (-1074 : ℤ) = E - 52 := by omega
  apply roundF_exact _ hz' (|z| * 2 ^ (52 - E).toNat)
  rw [hmax]
  have he : E - 52 = -(((52 - E).toNat : ℤ)) := by omega
  have ht : (2 : ℚ) ^ (E - 52) = ((2 : ℚ) ^ ((52 - E).toNat))⁻¹ := by
    rw [he, zpow_neg, zpow_natCast]
  rw [ht, div_eq_mul_inv, inv_inv]
  push_cast
  ring

theorem roundF_intCast_exists (z : ℤ) : ∃ j : ℤ, roundF (z : ℚ) = (j : ℚ) := by
  by_cases hz : z = 0
  · subst hz
    exact ⟨0, by simp [roundF]⟩
  have hz' : (z : ℚ) ≠ 0 := Int.cast_ne_zero.mpr hz
  have hE0 : 0 ≤ floorLog2 |(z : ℚ)| := floorLog2_nonneg _ (one_le_abs_cast z hz)
  rcases le_or_lt (floorLog2 |(z : ℚ)|) 52 with hle | hgt
  · exact ⟨z, roundF_int_exact_le52 z hz hle⟩
  · unfold roundF
    rw [if_neg hz']
    simp only [pow2Q_eq, qAbs_eq]
    set E := floorLog2 |(z : ℚ)| with hEdef
    have hmax : max (E - 52) (-1074 : ℤ) = E - 52 := by omega
    rw [hmax]
    refine ⟨(if z < 0 then -1 else 1) * roundHalfEven (|(z : ℚ)| / 2 ^ (E - 52)) *
      2 ^ (E - 52).toNat, ?_⟩
    have hpow : (2 : ℚ) ^ (E - 52) = ((2 : ℚ) ^ ((E - 52).toNat : ℕ)) := by
      rw [← zpow_natCast ((2 : ℚ)) (E - 52).toNat]
      congr 1
      omega
    rcases lt_or_le z 0 with hneg | hpos
    · rw [if_pos hneg, if_pos (by exact_mod_cast hneg : (z : ℚ) < 0), hpow]
      push_cast
      ring
    · have hq0 : ¬ (z : ℚ) < 0 := not_lt.mpr (by exact_mod_cast hpos)
      rw [if_neg (not_lt.mpr hpos), if_neg hq0, hpow]
      push_cast
      ring

theorem roundF_dyadic (q : ℚ) : ∃ k : ℤ, roundF q * 2 ^ (1074 : ℕ) = (k : ℚ) := by
  by_cases hq : q = 0
  · subst hq
    exact ⟨0, by simp [roundF]⟩
  unfold roundF
  rw [if_neg hq]
  simp only [pow2Q_eq, qAbs_eq]
  set E := floorLog2 |q| with hEdef
  set e := max (E - 52) (-1074 : ℤ) with hedef
  have he : -1074 ≤ e := le_max_right _ _
  set m := roundHalfEven (|q| / 2 ^ e) with hmdef
  refine ⟨(if q < 0 then -1 else 1) * m * 2 ^ (e + 1074).toNat, ?_⟩
  have ht : (e + 1074 : ℤ) = ((e + 1074).toNat : ℤ) := by omega
  have hsplit : (2 : ℚ) ^ e * 2 ^ (1074 : ℕ) = 2 ^ ((e + 1074).toNat : ℕ) := by
    rw [show ((2 : ℚ) ^ (1074 : ℕ)) = (2 : ℚ) ^ ((1074 : ℕ) : ℤ) by rw [zpow_natCast]]
    rw [← zpow_add₀ (by norm_num : (2:ℚ) ≠ 0), ← zpow_natCast ((2 : ℚ)), ← ht]
    norm_num
  rcases lt_or_le q 0 with hneg | hpos
  · rw [if_pos hneg]
    push_cast
    rw [if_pos hneg, mul_assoc, mul_assoc, hsplit]
    ring
  · rw [if_neg (not_lt.mpr hpos)]
    push_cast
    rw [if_neg (not_lt.mpr hpos), mul_assoc, mul_assoc, hsplit]
    ring

theorem roundF_fixed_mul_1e1074 (f : ℚ) (h : roundF f = f) :
    ∃ k : ℤ, f * 10 ^ (1074 : ℕ) = (k : ℚ) := by
  obtain ⟨k, hk⟩ := roundF_dyadic f
  rw [h] at hk
  refine ⟨k * 5 ^ (1074 : ℕ), ?_⟩
  have h10 : (10 : ℚ) ^ (1074 : ℕ) = 2 ^ (1074 : ℕ) * 5 ^ (1074 : ℕ) := by
    rw [← mul_pow]
    norm_num
  rw [h10, ← mul_assoc, hk]
  push_cast
  ring

/-! ### Go errors

`GoErr` models the distinguishable error outcomes of the embedded code:
`gcerr.Newf(gcerr.InvalidArgument, ...)`, the two `strconv` error kinds,
`errors.New`/`fmt.Errorf`, and a Go runtime panic (failed type
assertion or nil dereference). -/

inductive GoErr where
  | invalidArgument (msg : String)
  | numSyntax (s : String)
  | numRange (s : String)
  | errorsNew (msg : String)
  | panicked
deriving DecidableEq, Repr

instance exceptDecEq {ε α : Type} [DecidableEq ε] [DecidableEq α] : DecidableEq (Except ε α)
  | .ok a, .ok b =>
    if h : a = b then isTrue (h ▸ rfl) else isFalse fun hh => h (Except.ok.inj hh)
  | .ok _, .error _ => isFalse fun hh => Except.noConfusion hh
  | .error _, .ok _ => isFalse fun hh => Except.noConfusion hh
  | .error e, .error f =>
    if h : e = f then isTrue (h ▸ rfl) else isFalse fun hh => h (Except.error.inj hh)

/-! ### `strconv.ParseFloat` -/

/-- Leading sign of a decimal text. -/
def parseSign : List Char → ℤ × List Char
  | [] => (1, [])
  | c :: rest =>
    if c = '-' then (-1, rest) else if c = '+' then (1, rest) else (1, c :: rest)

/-- Exponent suffix after `e`/`E`: optional sign then digits, consuming
the whole remainder. -/
def parseExp (cs : List Char) : Option ℤ :=
  let sr := parseSign cs
  match takeDigits sr.2 with
  | (ds, []) => if ds.isEmpty then none else some (sr.1 * (valOfDigitsBE ds : ℤ))
  | _ => none

/-- Exact rational value of sign, integer digits, fraction digits and
decimal exponent. -/
def decimalVal (sgn : ℤ) (ids fds : List ℕ) (ex : ℤ) : ℚ :=
  (sgn : ℚ) * ((valOfDigitsBE (ids ++ fds) : ℕ) : ℚ) * powQ 10 (ex - fds.length)

/-- The decimal grammar accepted by `strconv.ParseFloat(s, 64)`:
`[+|-] digits [. digits] [(e|E)[+|-]digits]` with at least one mantissa
digit (hexadecimal floats, `inf`/`nan` and digit-separating underscores
stay outside the model).  Returns the exact rational value of the text. -/
def parseDecimal (s : List Char) : Option ℚ :=
  let sr := parseSign s
  let ir := takeDigits sr.2
  match ir.2 with
  | [] => if ir.1.isEmpty then none else some (decimalVal sr.1 ir.1 [] 0)
  | c :: cs =>
    if c = '.' then
      let fr := takeDigits cs
      if ir.1.isEmpty ∧ fr.1.isEmpty then none
      else match fr.2 with
        | [] => some (decimalVal sr.1 ir.1 fr.1 0)
        | c2 :: cs3 =>
          if c2 = 'e' ∨ c2 = 'E' then (parseExp cs3).map (fun ex => decimalVal sr.1 ir.1 fr.1 ex)
          else none
    else if c = 'e' ∨ c = 'E' then
      if ir.1.isEmpty then none else (parseExp cs).map (fun ex => decimalVal sr.1 ir.1 [] ex)
    else none

/-- `strconv.ParseFloat(s, 64)`: parse the decimal text, round to
binary64; out-of-range and underflow-to-zero results carry
`strconv.ErrRange` (the decoders treat any non-nil error as a failure,
so the partially-converged value Go also returns is not modelled). -/
def parseFloat (s : String) : Except GoErr ℚ :=
  match parseDecimal s.data with
  | none => .error (.numSyntax s)
  | some x =>
    if powQ 2 1024 ≤ qAbs (roundF x) then .error (.numRange s)
    else if x ≠ 0 ∧ roundF x = 0 then .error (.numRange s)
    else .ok (roundF x)

theorem digitCh_ne_signs : ∀ d < 10, digitCh d ≠ '-' ∧ digitCh d ≠ '+' ∧ digitCh d ≠ '.' := by
  decide

theorem parseSign_nosign (c : Char) (cs : List Char) (h1 : c ≠ '-') (h2 : c ≠ '+') :
    parseSign (c :: cs) = (1, c :: cs) := by
  simp only [parseSign]
  rw [if_neg h1, if_neg h2]

theorem natDigitsBE_ne_nil (n : ℕ) : natDigitsBE n ≠ [] := by
  unfold natDigitsBE
  split
  · simp
  · next h =>
    rw [natDigitsLE_eq]
    simp only [ne_eq, List.reverse_eq_nil_iff]
    exact Nat.digits_ne_nil_iff_ne_zero.mpr h

theorem takeDigits_renderNat (m : ℕ) :
    takeDigits (renderNat m) = (natDigitsBE m, []) := by
  have h := takeDigits_eq (natDigitsBE m) [] (natDigitsBE_lt m) (by intro c hc; cases hc)
  simpa [renderNat] using h

theorem decimalVal_int (sgn : ℤ) (ids : List ℕ) :
    decimalVal sgn ids [] 0 = (sgn : ℚ) * (valOfDigitsBE ids : ℚ) := by
  unfold decimalVal
  simp [powQ, powN_eq]

theorem parseSign_renderNat (m : ℕ) : parseSign (renderNat m) = (1, renderNat m) := by
  cases hdds : natDigitsBE m with
  | nil => exact absurd hdds (natDigitsBE_ne_nil m)
  | cons d ds =>
    have hdlt : d < 10 := natDigitsBE_lt m d (by rw [hdds]; simp)
    obtain ⟨hs1, hs2, _⟩ := digitCh_ne_signs d hdlt
    have hrn : renderNat m = digitCh d :: charsOfDigitsBE ds := by
      rw [renderNat, hdds]
      rfl
    rw [hrn, parseSign_nosign _ _ hs1 hs2]

theorem parseDecimal_sign_digits (sgn : ℤ) (l : List Char) (m : ℕ)
    (hps : parseSign l = (sgn, renderNat m)) :
    parseDecimal l = some ((sgn : ℚ) * (m : ℚ)) := by
  have hne := natDigitsBE_ne_nil m
  unfold parseDecimal
  rw [hps]
  dsimp only
  rw [takeDigits_renderNat]
  dsimp only
  cases hdds : natDigitsBE m with
  | nil => exact absurd hdds hne
  | cons d ds =>
    rw [if_neg (by simp), ← hdds, decimalVal_int, valOfDigitsBE_natDigitsBE]

theorem parseDecimal_renderInt (n : ℤ) : parseDecimal (renderInt n) = some ((n : ℚ)) := by
  unfold renderInt
  split
  · next h =>
    rw [parseDecimal_sign_digits (-1) _ n.natAbs (by simp [parseSign])]
    have hcast : ((n.natAbs : ℚ)) = -(n : ℚ) := by
      have key : ((n.natAbs : ℚ)) = |(n : ℚ)| := by
        rw [Int.cast_natAbs, abs_intCast_rat]
      rw [key, abs_of_neg (by exact_mod_cast h : (n : ℚ) < 0)]
    rw [hcast]
    push_cast
    ring
  · next h =>
    rw [parseDecimal_sign_digits 1 _ n.natAbs (parseSign_renderNat n.natAbs)]
    have hcast : ((n.natAbs : ℚ)) = (n : ℚ) := by
      have key : ((n.natAbs : ℚ)) = |(n : ℚ)| := by
        rw [Int.cast_natAbs, abs_intCast_rat]
      have hnn : (0 : ℚ) ≤ (n : ℚ) := by exact_mod_cast not_lt.mp h
      rw [key, abs_of_nonneg hnn]
    rw [hcast]
    push_cast
    ring

theorem powQ_1024_eq : powQ 2 1024 = ((2 ^ 1024 : ℕ) : ℚ) := by
  unfold powQ
  rw [if_pos (by norm_num), powN_eq, show ((1024 : ℤ)).toNat = 1024 from rfl]

theorem parseFloat_render_of_fixed (n : ℤ) (hfix : roundF (n : ℚ) = (n : ℚ))
    (hrange : |n| < 2 ^ 1024) :
    parseFloat (String.mk (renderInt n)) = .ok ((n : ℚ)) := by
  unfold parseFloat
  rw [show (String.mk (renderInt n)).data = renderInt n from rfl, parseDecimal_renderInt]
  dsimp only
  rw [hfix]
  have habs : qAbs ((n : ℚ)) = ((|n| : ℤ) : ℚ) := by
    rw [qAbs_eq, abs_intCast_rat]
  rw [if_neg (by
    rw [habs, powQ_1024_eq]
    push_cast
    rw [not_le]
    exact_mod_cast hrange)]
  rw [if_neg (fun hcon => hcon.1 hcon.2)]

theorem parseFloat_renderInt (n : ℤ) (h : |n| ≤ 2 ^ 53) :
    parseFloat (String.mk (renderInt n)) = .ok ((n : ℚ)) :=
  parseFloat_render_of_fixed n (roundF_int_small n h)
    (lt_of_le_of_lt h (pow_lt_pow_right₀ (by norm_num) (by norm_num)))

/-! ### `strconv.FormatFloat(f, 'f', -1, 64)`

Go emits the shortest decimal (in `'f'` notation, no exponent) that
parses back to the same binary64 value.  The model renders the value
rounded to 1..17 significant digits, returns the first rendering that
reparses exactly, and otherwise falls back to the exact fixed-point
expansion with 1074 fractional digits (every finite binary64 value has
an exact decimal expansion of that length, so the fallback always
reparses exactly; 17 digits in fact always suffice, but the model does
not rely on that). -/

/-- Number of decimal digits (`0` counts as one digit). -/
def digitCount (n : ℕ) : ℕ := (natDigitsBE n).length

/-- For `q > 0`, an exponent near `log10 q` (used only to position the
candidate roundings; no correctness is needed of it). -/
def floorLog10 (q : ℚ) : ℤ :=
  let k : ℤ := (digitCount q.num.natAbs : ℤ) - (digitCount q.den : ℤ)
  if q < powQ 10 k then k - 1 else k

/-- Render `f ≠ 0` rounded to `d` significant digits, `'f'` notation. -/
def renderSig (f : ℚ) (d : ℕ) : List Char :=
  let a := qAbs f
  let scale : ℤ := floorLog10 a - d + 1
  let m : ℕ := (roundHalfEven (a / powQ 10 scale)).toNat
  let ds := natDigitsBE m
  let body : List Char :=
    if 0 ≤ scale then charsOfDigitsBE ds ++ List.replicate scale.toNat '0'
    else
      let k := (-scale).toNat
      if k < ds.length then
        charsOfDigitsBE (ds.take (ds.length - k)) ++ '.' :: charsOfDigitsBE (ds.drop (ds.length - k))
      else '0' :: '.' :: (List.replicate (k - ds.length) '0' ++ charsOfDigitsBE ds)
  if f < 0 then '-' :: body else body

/-- Left-pad a digit list with zeros to length `k`. -/
def leftPad (k : ℕ) (ds : List ℕ) : List ℕ := List.replicate (k - ds.length) 0 ++ ds

/-- Exact fixed-point rendering with 1074 fractional digits (defined for
values whose denominator divides `2 ^ 1074`, i.e. every finite float). -/
def renderFixed1074 (f : ℚ) : List Char :=
  let N : ℕ := (qAbs f * powQ 10 1074).num.toNat
  let body := renderNat (N / powN 10 1074) ++
    '.' :: charsOfDigitsBE (leftPad 1074 (natDigitsBE (N % powN 10 1074)))
  if f < 0 then '-' :: body else body

/-- `strconv.FormatFloat(f, 'f', -1, 64)`. -/
def formatFloat (f : ℚ) : String :=
  if f = 0 then "0"
  else
    match ((List.range 17).map (fun i => String.mk (renderSig f (i + 1)))).find?
        (fun s => decide (parseFloat s = .ok f)) with
    | some s => s
    | none => String.mk (renderFixed1074 f)

/-- A rational is (the value of) a finite binary64 number. -/
def IsFloat64 (q : ℚ) : Prop := roundF q = q ∧ qAbs q < powQ 2 1024

instance isFloat64Dec (q : ℚ) : Decidable (IsFloat64 q) := by
  unfold IsFloat64
  infer_instance

theorem renderNat_head (m : ℕ) :
    ∃ d ds, d < 10 ∧ renderNat m = digitCh d :: charsOfDigitsBE ds ∧ natDigitsBE m = d :: ds := by
  cases hdds : natDigitsBE m with
  | nil => exact absurd hdds (natDigitsBE_ne_nil m)
  | cons d ds =>
    refine ⟨d, ds, natDigitsBE_lt m d (by rw [hdds]; simp), ?_, rfl⟩
    rw [renderNat, hdds]
    rfl

theorem parseSign_append_renderNat (m : ℕ) (rest : List Char) :
    parseSign (renderNat m ++ rest) = (1, renderNat m ++ rest) := by
  obtain ⟨d, ds, hd, hrn, _⟩ := renderNat_head m
  obtain ⟨hs1, hs2, _⟩ := digitCh_ne_signs d hd
  rw [hrn, List.cons_append, parseSign_nosign _ _ hs1 hs2, ← List.cons_append, ← hrn]

theorem valOfDigitsBE_leftPad (k : ℕ) (ds : List ℕ) :
    valOfDigitsBE (leftPad k ds) = valOfDigitsBE ds := by
  unfold leftPad valOfDigitsBE
  generalize k - ds.length = j
  induction j with
  | zero => rfl
  | succ i ih =>
    rw [List.replicate_succ, List.cons_append, List.foldl_cons]
    simpa using ih

theorem leftPad_lt (k : ℕ) (ds : List ℕ) (h : ∀ d ∈ ds, d < 10) :
    ∀ d ∈ leftPad k ds, d < 10 := by
  intro d hd
  unfold leftPad at hd
  rcases List.mem_append.mp hd with h1 | h2
  · have := List.eq_of_mem_replicate h1
    omega
  · exact h d h2

theorem natDigitsBE_length_le (lo k : ℕ) (hk : 1 ≤ k) (hlo : lo < 10 ^ k) :
    (natDigitsBE lo).length ≤ k := by
  unfold natDigitsBE
  split
  · simpa using hk
  · next h0 =>
    rw [natDigitsLE_eq, List.length_reverse,
      Nat.digits_len 10 lo (by norm_num) h0]
    have := Nat.log_lt_of_lt_pow h0 hlo
    omega

theorem leftPad_length (k : ℕ) (ds : List ℕ) (h : ds.length ≤ k) :
    (leftPad k ds).length = k := by
  unfold leftPad
  rw [List.length_append, List.length_replicate]
  omega

theorem decimalVal_frac (sgn : ℤ) (ids fds : List ℕ) :
    decimalVal sgn ids fds 0 =
      (sgn : ℚ) * ((valOfDigitsBE (ids ++ fds) : ℚ) / (10 : ℚ) ^ fds.length) := by
  unfold decimalVal
  rw [pow10Q_eq, zero_sub, zpow_neg, zpow_natCast, div_eq_mul_inv, mul_assoc]

theorem parseDecimal_tail_fixed (sgn : ℤ) (l : List Char) (hi lo k : ℕ)
    (hk : 1 ≤ k) (hlo : lo < 10 ^ k)
    (hps : parseSign l =
      (sgn, renderNat hi ++ '.' :: charsOfDigitsBE (leftPad k (natDigitsBE lo)))) :
    parseDecimal l = some ((sgn : ℚ) * (((hi * 10 ^ k + lo : ℕ) : ℚ) / (10 : ℚ) ^ k)) := by
  have hlen : (leftPad k (natDigitsBE lo)).length = k :=
    leftPad_length k _ (natDigitsBE_length_le lo k hk hlo)
  have hfrac : takeDigits (charsOfDigitsBE (leftPad k (natDigitsBE lo))) =
      (leftPad k (natDigitsBE lo), []) := by
    rw [show charsOfDigitsBE (leftPad k (natDigitsBE lo)) =
      charsOfDigitsBE (leftPad k (natDigitsBE lo)) ++ [] by simp]
    exact takeDigits_eq (leftPad k (natDigitsBE lo)) []
      (leftPad_lt k _ (natDigitsBE_lt lo)) (by intro c hc; cases hc)
  unfold parseDecimal
  rw [hps]
  dsimp only
  rw [show renderNat hi ++ '.' :: charsOfDigitsBE (leftPad k (natDigitsBE lo)) =
    charsOfDigitsBE (natDigitsBE hi) ++ '.' :: charsOfDigitsBE (leftPad k (natDigitsBE lo))
    from rfl]
  rw [takeDigits_eq (natDigitsBE hi) _ (natDigitsBE_lt hi) (by
    intro c hc
    simp only [List.head?_cons, Option.some.injEq] at hc
    subst hc
    decide)]
  dsimp only
  rw [if_pos rfl, hfrac]
  dsimp only
  obtain ⟨d, ds, hd, hrn, hdds⟩ := renderNat_head hi
  rw [if_neg (by
    rw [hdds]
    simp)]
  rw [decimalVal_frac, valOfDigitsBE_append, valOfDigitsBE_leftPad,
    valOfDigitsBE_natDigitsBE, valOfDigitsBE_natDigitsBE, hlen]

theorem pow10_1074_cast : powQ 10 (1074 : ℤ) = (10 : ℚ) ^ (1074 : ℕ) := by
  rw [pow10Q_eq, show ((1074 : ℤ)) = ((1074 : ℕ) : ℤ) from rfl, zpow_natCast]

theorem parseDecimal_renderFixed1074 (f : ℚ) (hf : f ≠ 0)
    (hz : ∃ z : ℤ, f * 10 ^ (1074 : ℕ) = (z : ℚ)) :
    parseDecimal (renderFixed1074 f) = some f := by
  obtain ⟨z, hzz⟩ := hz
  have hpow_pos : (0 : ℚ) < (10 : ℚ) ^ (1074 : ℕ) := by positivity
  have habs : qAbs f * powQ 10 1074 = ((|z| : ℤ) : ℚ) := by
    rw [qAbs_eq, pow10_1074_cast,
      show (((|z| : ℤ)) : ℚ) = |(z : ℚ)| from (abs_intCast_rat z).symm,
      ← hzz, abs_mul, abs_of_pos hpow_pos]
  have hNnum : (qAbs f * powQ 10 1074).num.toNat = |z|.toNat := by
    rw [habs, Rat.num_intCast]
  set N : ℕ := (qAbs f * powQ 10 1074).num.toNat with hN
  have hNcast : (N : ℚ) = qAbs f * (10 : ℚ) ^ (1074 : ℕ) := by
    have h1 : ((N : ℤ)) = |z| := by
      rw [hNnum]
      exact Int.toNat_of_nonneg (abs_nonneg z)
    have h2 : ((N : ℚ)) = ((|z| : ℤ) : ℚ) := by
      exact_mod_cast congrArg (fun w : ℤ => (w : ℚ)) h1
    rw [h2, ← habs, pow10_1074_cast]
  have hsplit : N / powN 10 1074 * 10 ^ (1074 : ℕ) + N % powN 10 1074 = N := by
    rw [powN_eq]
    exact Nat.div_add_mod' N (10 ^ (1074 : ℕ))
  have hlo : N % powN 10 1074 < 10 ^ (1074 : ℕ) := by
    rw [powN_eq]
    exact Nat.mod_lt N (by positivity)
  have hcore : ∀ (sgn : ℤ) (l : List Char),
      parseSign l = (sgn, renderNat (N / powN 10 1074) ++
        '.' :: charsOfDigitsBE (leftPad 1074 (natDigitsBE (N % powN 10 1074)))) →
      parseDecimal l = some ((sgn : ℚ) * (qAbs f)) := by
    intro sgn l hps
    rw [parseDecimal_tail_fixed sgn l (N / powN 10 1074) (N % powN 10 1074) 1074
      (by norm_num) hlo hps]
    refine congrArg some ?_
    rw [hsplit, hNcast, mul_div_cancel_right₀ _ (ne_of_gt hpow_pos)]
  unfold renderFixed1074
  dsimp only
  rcases lt_or_gt_of_ne hf with hneg | hpos
  · rw [if_pos hneg, ← hN]
    have hps : parseSign ('-' :: (renderNat (N / powN 10 1074) ++
        '.' :: charsOfDigitsBE (leftPad 1074 (natDigitsBE (N % powN 10 1074))))) =
        (-1, renderNat (N / powN 10 1074) ++
        '.' :: charsOfDigitsBE (leftPad 1074 (natDigitsBE (N % powN 10 1074)))) := by
      simp [parseSign]
    rw [hcore (-1) _ hps]
    rw [qAbs_eq, abs_of_neg hneg]
    norm_num
  · rw [if_neg (not_lt.mpr (le_of_lt hpos)), ← hN]
    rw [hcore 1 _ (parseSign_append_renderNat _ _)]
    rw [qAbs_eq, abs_of_pos hpos]
    norm_num

theorem parseFloat_renderFixed1074 (f : ℚ) (hfl : IsFloat64 f) (hf : f ≠ 0) :
    parseFloat (String.mk (renderFixed1074 f)) = .ok f := by
  obtain ⟨hfix, hrange⟩ := hfl
  have hz : ∃ z : ℤ, f * 10 ^ (1074 : ℕ) = (z : ℚ) := roundF_fixed_mul_1e1074 f hfix
  unfold parseFloat
  rw [show (String.mk (renderFixed1074 f)).data = renderFixed1074 f from rfl,
    parseDecimal_renderFixed1074 f hf hz]
  dsimp only
  rw [hfix, if_neg (not_le.mpr hrange), if_neg (fun hcon => hcon.1 hcon.2)]

theorem parseFloat_formatFloat (f : ℚ) (hfl : IsFloat64 f) :
    parseFloat (formatFloat f) = .ok f := by
  by_cases hf : f = 0
  · subst hf
    have h1 : formatFloat 0 = "0" := by with_unfolding_all rfl
    have h0 : parseFloat "0" = .ok 0 := by with_unfolding_all decide
    rw [h1, h0]
  unfold formatFloat
  rw [if_neg hf]
  cases hfind : ((List.range 17).map (fun i => String.mk (renderSig f (i + 1)))).find?
      (fun s => decide (parseFloat s = .ok f)) with
  | none => exact parseFloat_renderFixed1074 f hfl hf
  | some s =>
    have hp := List.find?_some hfind
    simpa using hp

/-! ### Go numeric conversions (amd64 semantics) -/

/-- Truncation of a rational toward zero (`ℤ` division truncates toward
zero and the denominator is positive). -/
def truncQ (q : ℚ) : ℤ := q.num / (q.den : ℤ)

/-- Go's `int64(f)` for a binary64 value: fraction discarded; a value
out of the int64 range is implementation-defined and yields
`math.MinInt64` on amd64 (`cvttsd2si`). -/
def int64OfFloat (q : ℚ) : ℤ :=
  if -(2 ^ 63) ≤ truncQ q ∧ truncQ q < 2 ^ 63 then truncQ q else -(2 ^ 63)

/-- Go's `uint64(f)` for a binary64 value, as lowered on amd64: values
below `2 ^ 63` go through `int64(f)` reinterpreted, larger ones through
`int64(f - 2 ^ 63) + 2 ^ 63`. -/
def uint64OfFloat (q : ℚ) : ℕ :=
  if q < powQ 2 63 then (int64OfFloat q % (2 ^ 64 : ℤ)).toNat
  else ((int64OfFloat (q - powQ 2 63) + 2 ^ 63) % (2 ^ 64 : ℤ)).toNat

/-- Two's-complement reinterpretation `int64(u)` of a uint64 value. -/
def int64OfUint64 (u : ℕ) : ℤ := if u < 2 ^ 63 then (u : ℤ) else (u : ℤ) - 2 ^ 64

/-- Two's-complement reinterpretation `uint64(i)` of an int64 value. -/
def uint64OfInt64 (i : ℤ) : ℕ := (i % (2 ^ 64 : ℤ)).toNat

/-! ### `time.Time` and RFC3339Nano

A `time.Time` is modelled by exactly the information an RFC3339Nano
string carries: the broken-down wall clock fields and the UTC offset in
minutes.  Two values of this structure are equal iff the corresponding
Go times format identically, and equal field sets at equal offsets
denote the same instant, so equality of `GoTime` values is (strictly
finer than) equality of instants to nanosecond precision. -/

structure GoTime where
  year : ℕ
  month : ℕ
  day : ℕ
  hour : ℕ
  minute : ℕ
  sec : ℕ
  nsec : ℕ
  offMin : ℤ
deriving DecidableEq, Repr

def isLeap (y : ℕ) : Bool := y % 4 = 0 && (y % 100 ≠ 0 || y % 400 = 0)

def daysInMonth (y m : ℕ) : ℕ :=
  if m = 2 then (if isLeap y then 29 else 28)
  else if m = 4 ∨ m = 6 ∨ m = 9 ∨ m = 11 then 30
  else 31

/-- Field ranges under which the RFC3339Nano round trip is exact: the
four-digit year range, calendar-valid month/day, wall-clock ranges, and
a whole-minute offset below a day's worth (`time.Time` field values
outside these ranges cannot be produced by a parsed RFC3339 string). -/
def validTime (t : GoTime) : Bool :=
  t.year ≤ 9999 && 1 ≤ t.month && t.month ≤ 12 &&
  1 ≤ t.day && t.day ≤ daysInMonth t.year t.month &&
  t.hour ≤ 23 && t.minute ≤ 59 && t.sec ≤ 59 && t.nsec < 1000000000 &&
  t.offMin.natAbs ≤ 23 * 60 + 59

def pad2 (n : ℕ) : List Char := [digitCh (n / 10 % 10), digitCh (n % 10)]

def pad4 (n : ℕ) : List Char :=
  [digitCh (n / 1000 % 10), digitCh (n / 100 % 10), digitCh (n / 10 % 10), digitCh (n % 10)]

/-- Fractional-second part of `time.RFC3339Nano` formatting: nine
zero-padded digits with trailing zeros removed, or nothing at all for a
whole second. -/
def fracRFC3339 (nsec : ℕ) : List Char :=
  if nsec = 0 then []
  else
    let ds := leftPad 9 (natDigitsBE nsec)
    '.' :: charsOfDigitsBE ((ds.reverse.dropWhile (fun d => d = 0)).reverse)

/-- Zone suffix `Z07:00`: `Z` for UTC, else a signed `hh:mm` offset. -/
def zoneRFC3339 (off : ℤ) : List Char :=
  if off = 0 then ['Z']
  else
    (if off < 0 then '-' else '+') ::
      (pad2 (off.natAbs / 60) ++ ':' :: pad2 (off.natAbs % 60))

/-- `t.Format(time.RFC3339Nano)`. -/
def formatRFC3339Nano (t : GoTime) : String :=
  String.mk (pad4 t.year ++ '-' :: pad2 t.month ++ '-' :: pad2 t.day ++
    'T' :: pad2 t.hour ++ ':' :: pad2 t.minute ++ ':' :: pad2 t.sec ++
    (fracRFC3339 t.nsec ++ zoneRFC3339 t.offMin))

def parse2 : List Char → Option (ℕ × List Char)
  | a :: b :: r =>
    if isDigitCh a && isDigitCh b then some (10 * digitVal a + digitVal b, r) else none
  | _ => none

def parse4 : List Char → Option (ℕ × List Char)
  | a :: b :: c :: d :: r =>
    if isDigitCh a && isDigitCh b && isDigitCh c && isDigitCh d then
      some (1000 * digitVal a + 100 * digitVal b + 10 * digitVal c + digitVal d, r)
    else none
  | _ => none

def expectCh (c : Char) : List Char → Option (List Char)
  | x :: r => if x = c then some r else none
  | [] => none

/-- Optional fractional seconds: a dot followed by one to nine digits;
anything else leaves the input untouched with zero nanoseconds. -/
def parseFracOpt : List Char → Option (ℕ × List Char)
  | [] => some (0, [])
  | c :: r =>
    if c = '.' then
      let dr := takeDigits r
      if 1 ≤ dr.1.length ∧ dr.1.length ≤ 9 then
        some (valOfDigitsBE dr.1 * powN 10 (9 - dr.1.length), dr.2)
      else none
    else some (0, c :: r)

/-- Zone suffix: `Z` or `±hh:mm` with in-range components. -/
def parseZone : List Char → Option (ℤ × List Char)
  | [] => none
  | c :: r =>
    if c = 'Z' then some (0, r)
    else if c = '+' ∨ c = '-' then
      match parse2 r with
      | none => none
      | some (hh, r2) =>
        match expectCh ':' r2 with
        | none => none
        | some r3 =>
          match parse2 r3 with
          | none => none
          | some (mm, r4) =>
            if hh ≤ 23 ∧ mm ≤ 59 then
              some ((if c = '-' then -1 else 1) * (hh * 60 + mm), r4)
            else none
    else none

/-- `time.Parse(time.RFC3339Nano, s)` (strict RFC3339 grammar with
calendar validation; a comma as fraction separator is not modelled). -/
def parseRFC3339Nano (s : String) : Option GoTime :=
  match parse4 s.data with
  | none => none
  | some (y, cs) =>
    match expectCh '-' cs with
    | none => none
    | some cs =>
      match parse2 cs with
      | none => none
      | some (mo, cs) =>
        match expectCh '-' cs with
        | none => none
        | some cs =>
          match parse2 cs with
          | none => none
          | some (d, cs) =>
            match expectCh 'T' cs with
            | none => none
            | some cs =>
              match parse2 cs with
              | none => none
              | some (h, cs) =>
                match expectCh ':' cs with
                | none => none
                | some cs =>
                  match parse2 cs with
                  | none => none
                  | some (mi, cs) =>
                    match expectCh ':' cs with
                    | none => none
                    | some cs =>
                      match parse2 cs with
                      | none => none
                      | some (se, cs) =>
                        match parseFracOpt cs with
                        | none => none
                        | some (ns, cs) =>
                          match parseZone cs with
                          | none => none
                          | some (off, cs) =>
                            if cs = [] ∧ 1 ≤ mo ∧ mo ≤ 12 ∧ 1 ≤ d ∧
                                d ≤ daysInMonth y mo ∧ h ≤ 23 ∧ mi ≤ 59 ∧ se ≤ 59 then
                              some ⟨y, mo, d, h, mi, se, ns, off⟩
                            else none

theorem parse2_pad2 (n : ℕ) (h : n ≤ 99) (rest : List Char) :
    parse2 (pad2 n ++ rest) = some (n, rest) := by
  have h1 : n / 10 % 10 < 10 := Nat.mod_lt _ (by norm_num)
  have h2 : n % 10 < 10 := Nat.mod_lt _ (by norm_num)
  obtain ⟨d1a, d1b⟩ := digitCh_props _ h1
  obtain ⟨d2a, d2b⟩ := digitCh_props _ h2
  unfold pad2
  simp only [List.cons_append, List.nil_append, parse2, d1a, d2a, Bool.and_self, if_true,
    d1b, d2b]
  have : 10 * (n / 10 % 10) + n % 10 = n := by omega
  rw [this]

theorem parse4_pad4 (n : ℕ) (h : n ≤ 9999) (rest : List Char) :
    parse4 (pad4 n ++ rest) = some (n, rest) := by
  have h1 : n / 1000 % 10 < 10 := Nat.mod_lt _ (by norm_num)
  have h2 : n / 100 % 10 < 10 := Nat.mod_lt _ (by norm_num)
  have h3 : n / 10 % 10 < 10 := Nat.mod_lt _ (by norm_num)
  have h4 : n % 10 < 10 := Nat.mod_lt _ (by norm_num)
  obtain ⟨d1a, d1b⟩ := digitCh_props _ h1
  obtain ⟨d2a, d2b⟩ := digitCh_props _ h2
  obtain ⟨d3a, d3b⟩ := digitCh_props _ h3
  obtain ⟨d4a, d4b⟩ := digitCh_props _ h4
  unfold pad4
  simp only [List.cons_append, List.nil_append, parse4, d1a, d2a, d3a, d4a, Bool.and_self,
    if_true, d1b, d2b, d3b, d4b]
  have : 1000 * (n / 1000 % 10) + 100 * (n / 100 % 10) + 10 * (n / 10 % 10) + n % 10 = n := by
    omega
  rw [this]

theorem expectCh_cons (c : Char) (r : List Char) : expectCh c (c :: r) = some r := by
  simp [expectCh]

theorem valOfDigitsBE_replicate_zero (t : ℕ) : valOfDigitsBE (List.replicate t 0) = 0 := by
  induction t with
  | zero => rfl
  | succ i ih =>
    unfold valOfDigitsBE at ih ⊢
    rw [List.replicate_succ, List.foldl_cons]
    simpa using ih

theorem frac_roundtrip (nsec : ℕ) (h9 : nsec < 1000000000) (rest : List Char)
    (hrest : ∀ c, rest.head? = some c → isDigitCh c = false ∧ c ≠ '.') :
    parseFracOpt (fracRFC3339 nsec ++ rest) = some (nsec, rest) := by
  unfold fracRFC3339
  by_cases h0 : nsec = 0
  · subst h0
    rw [if_pos rfl, List.nil_append]
    cases rest with
    | nil => rfl
    | cons c r =>
      obtain ⟨_, hdot⟩ := hrest c rfl
      simp only [parseFracOpt]
      rw [if_neg hdot]
  · rw [if_neg h0]
    have hlen9 : (leftPad 9 (natDigitsBE nsec)).length = 9 :=
      leftPad_length 9 _ (natDigitsBE_length_le nsec 9 (by norm_num) (by norm_num; omega))
    set ds := leftPad 9 (natDigitsBE nsec) with hds
    have hval : valOfDigitsBE ds = nsec := by
      rw [hds, valOfDigitsBE_leftPad, valOfDigitsBE_natDigitsBE]
    have hdslt : ∀ d ∈ ds, d < 10 := leftPad_lt 9 _ (natDigitsBE_lt nsec)
    set kept := ds.reverse.dropWhile (fun d => d = 0) with hkept
    set trail := ds.reverse.takeWhile (fun d => d = 0) with htrail
    have hsplit : ds = kept.reverse ++ trail.reverse := by
      have h1 : trail ++ kept = ds.reverse := List.takeWhile_append_dropWhile _ _
      calc ds = ds.reverse.reverse := (List.reverse_reverse ds).symm
        _ = (trail ++ kept).reverse := by rw [h1]
        _ = kept.reverse ++ trail.reverse := List.reverse_append _ _
    have htrail0 : trail.reverse = List.replicate trail.length 0 := by
      have : ∀ d ∈ trail, d = 0 := by
        intro d hd
        have := List.mem_takeWhile_imp hd
        simpa using this
      rw [List.eq_replicate_iff.mpr ⟨List.length_reverse trail, by
        intro d hd
        exact this d (List.mem_reverse.mp hd)⟩]
    have hvalkept : valOfDigitsBE kept.reverse * 10 ^ trail.length = nsec := by
      have hx := valOfDigitsBE_append kept.reverse trail.reverse
      rw [← hsplit, hval, htrail0, valOfDigitsBE_replicate_zero, List.length_replicate] at hx
      simpa using hx.symm
    have hkept_ne : kept.reverse ≠ [] := by
      intro hnil
      have h1 : kept = [] := by
        cases hk : kept with
        | nil => rfl
        | cons a l => rw [hk] at hnil; simp at hnil
      rw [h1] at hsplit
      simp only [List.reverse_nil, List.nil_append] at hsplit
      rw [hsplit, htrail0, valOfDigitsBE_replicate_zero] at hval
      exact h0 hval.symm
    have hlensum : kept.reverse.length + trail.length = 9 := by
      have hx2 := congrArg List.length hsplit
      simp only [List.length_append, List.length_reverse] at hx2
      rw [List.length_reverse]
      omega
    have hkeptlt : ∀ d ∈ kept.reverse, d < 10 := by
      intro d hd
      apply hdslt
      rw [hsplit]
      exact List.mem_append.mpr (Or.inl hd)
    have htd : takeDigits (charsOfDigitsBE kept.reverse ++ rest) = (kept.reverse, rest) :=
      takeDigits_eq _ _ hkeptlt (fun c hc => (hrest c hc).1)
    have hlen1 : 1 ≤ kept.reverse.length := by
      cases hk : kept.reverse with
      | nil => exact absurd hk hkept_ne
      | cons a l => simp
    rw [List.cons_append]
    simp only [parseFracOpt, if_true]
    rw [← hkept, htd]
    dsimp only
    rw [if_pos (And.intro hlen1 (by omega : kept.reverse.length ≤ 9)), powN_eq]
    have hgap : 9 - kept.reverse.length = trail.length := by omega
    rw [hgap, hvalkept]

theorem parseZone_format (off : ℤ) (hoff : off.natAbs ≤ 23 * 60 + 59) (rest : List Char) :
    parseZone (zoneRFC3339 off ++ rest) = some (off, rest) := by
  unfold zoneRFC3339
  by_cases h0 : off = 0
  · subst h0
    rw [if_pos rfl]
    simp [parseZone]
  · rw [if_neg h0]
    have hdiv : off.natAbs / 60 ≤ 99 := by omega
    have hmod : off.natAbs % 60 ≤ 99 := by omega
    have hh23 : off.natAbs / 60 ≤ 23 := by omega
    have hm59 : off.natAbs % 60 ≤ 59 := by omega
    rcases lt_or_gt_of_ne h0 with hneg | hpos
    · rw [if_pos hneg]
      simp only [List.cons_append, parseZone]
      rw [if_neg (by decide : ¬ ('-' : Char) = 'Z'), if_pos (Or.inr trivial)]
      rw [List.append_assoc, parse2_pad2 _ hdiv]
      dsimp only
      rw [List.cons_append, expectCh_cons]
      dsimp only
      rw [parse2_pad2 _ hmod]
      dsimp only
      rw [if_pos ⟨hh23, hm59⟩, if_pos trivial]
      congr 1
      refine congrArg (fun z => (z, rest)) ?_
      omega
    · rw [if_neg (not_lt.mpr (le_of_lt hpos))]
      simp only [List.cons_append, parseZone]
      rw [if_neg (by decide : ¬ ('+' : Char) = 'Z'), if_pos (Or.inl trivial)]
      rw [List.append_assoc, parse2_pad2 _ hdiv]
      dsimp only
      rw [List.cons_append, expectCh_cons]
      dsimp only
      rw [parse2_pad2 _ hmod]
      dsimp only
      rw [if_pos ⟨hh23, hm59⟩, if_neg (by decide : ¬ ('+' : Char) = '-')]
      congr 1
      refine congrArg (fun z => (z, rest)) ?_
      omega

theorem zone_head_not_digit (off : ℤ) :
    ∀ c, (zoneRFC3339 off).head? = some c → isDigitCh c = false ∧ c ≠ '.' := by
  intro c hc
  unfold zoneRFC3339 at hc
  by_cases h0 : off = 0
  · rw [if_pos h0] at hc
    simp only [List.head?_cons, Option.some.injEq] at hc
    subst hc
    exact ⟨by decide, by decide⟩
  · rw [if_neg h0] at hc
    simp only [List.head?_cons, Option.some.injEq] at hc
    subst hc
    by_cases hn : off < 0
    · rw [if_pos hn]
      exact ⟨by decide, by decide⟩
    · rw [if_neg hn]
      exact ⟨by decide, by decide⟩

theorem parseRFC3339Nano_format (t : GoTime) (hv : validTime t = true) :
    parseRFC3339Nano (formatRFC3339Nano t) = some t := by
  unfold validTime at hv
  simp only [Bool.and_eq_true, decide_eq_true_eq] at hv
  obtain ⟨⟨⟨⟨⟨⟨⟨⟨⟨hy, hm1⟩, hm2⟩, hd1⟩, hd2⟩, hh⟩, hmi⟩, hse⟩, hns⟩, hoff⟩ := hv
  unfold formatRFC3339Nano parseRFC3339Nano
  dsimp only
  simp only [List.append_assoc, List.cons_append]
  rw [parse4_pad4 _ hy]
  dsimp only
  rw [expectCh_cons]
  dsimp only
  rw [parse2_pad2 _ (by omega : t.month ≤ 99)]
  dsimp only
  rw [expectCh_cons]
  dsimp only
  rw [parse2_pad2 _ (by
    have hle : daysInMonth t.year t.month ≤ 31 := by
      unfold daysInMonth
      split
      · split <;> omega
      · split <;> omega
    omega : t.day ≤ 99)]
  dsimp only
  rw [expectCh_cons]
  dsimp only
  rw [parse2_pad2 _ (by omega : t.hour ≤ 99)]
  dsimp only
  rw [expectCh_cons]
  dsimp only
  rw [parse2_pad2 _ (by omega : t.minute ≤ 99)]
  dsimp only
  rw [expectCh_cons]
  dsimp only
  rw [parse2_pad2 _ (by omega : t.sec ≤ 99)]
  dsimp only
  rw [frac_roundtrip _ hns _ (zone_head_not_digit t.offMin)]
  dsimp only
  have hz := parseZone_format t.offMin hoff []
  rw [List.append_nil] at hz
  rw [hz]
  dsimp only
  rw [if_pos ⟨rfl, hm1, hm2, hd1, hd2, hh, hmi, hse⟩]

/-! ### The tagged-value tree (`type codec struct { kind reflect.Kind; value any }`)

`GoKind` lists the values of `reflect.Kind`.  A `codec` node is a kind
tag together with the dynamic Go value stored in its `value any` field;
`GoVal` enumerates the dynamic types that the encoder, the decoders and
the accessors ever store or assert (`nil`, `bool`, `int64`, `uint64`,
`float64`, `string`, `[]byte`, `complex128`, `time.Time`, `[]*codec`,
`map[string]*codec`, and the set payloads `[]*string`/`[][]byte`).  Go
maps are modelled as association lists, fixing an iteration order the
Go runtime leaves arbitrary. -/

inductive GoKind where
  | kinvalid
  | kbool
  | kint
  | kint8
  | kint16
  | kint32
  | kint64
  | kuint
  | kuint8
  | kuint16
  | kuint32
  | kuint64
  | kuintptr
  | kfloat32
  | kfloat64
  | kcomplex64
  | kcomplex128
  | karray
  | kchan
  | kfunc
  | kinterface
  | kmap
  | kpointer
  | kslice
  | kstring
  | kstruct
  | kunsafePointer
deriving DecidableEq, Repr

/-- `reflect.Kind.String()`. -/
def kindName : GoKind → String
  | .kinvalid => "invalid"
  | .kbool => "bool"
  | .kint => "int"
  | .kint8 => "int8"
  | .kint16 => "int16"
  | .kint32 => "int32"
  | .kint64 => "int64"
  | .kuint => "uint"
  | .kuint8 => "uint8"
  | .kuint16 => "uint16"
  | .kuint32 => "uint32"
  | .kuint64 => "uint64"
  | .kuintptr => "uintptr"
  | .kfloat32 => "float32"
  | .kfloat64 => "float64"
  | .kcomplex64 => "complex64"
  | .kcomplex128 => "complex128"
  | .karray => "array"
  | .kchan => "chan"
  | .kfunc => "func"
  | .kinterface => "interface"
  | .kmap => "map"
  | .kpointer => "ptr"
  | .kslice => "slice"
  | .kstring => "string"
  | .kstruct => "struct"
  | .kunsafePointer => "unsafe.Pointer"

mutual
inductive Codec where
  | node (kind : GoKind) (value : GoVal)
deriving DecidableEq
inductive GoVal where
  | vnil
  | vbool (b : Bool)
  | vint (i : ℤ)
  | vuint (u : ℕ)
  | vfloat (q : ℚ)
  | vstr (s : String)
  | vbytes (bs : List ℕ)
  | vcomplex (re im : ℚ)
  | vtime (t : GoTime)
  | vlist (l : CodecList)
  | vmap (m : CodecMap)
  | vstrs (l : List String)
  | vbytess (l : List (List ℕ))
deriving DecidableEq
inductive CodecList where
  | nil
  | cons (c : Codec) (l : CodecList)
deriving DecidableEq
inductive CodecMap where
  | nil
  | cons (k : String) (c : Codec) (m : CodecMap)
deriving DecidableEq
end

def CodecList.length : CodecList → ℕ
  | .nil => 0
  | .cons _ l => 1 + l.length

def CodecMap.length : CodecMap → ℕ
  | .nil => 0
  | .cons _ _ m => 1 + m.length

/-- `reflect.TypeOf(v).Kind()` for the dynamic value in a `value any`
field: the kind of the payload's dynamic type.  `reflect.TypeOf(nil)`
is the nil `reflect.Type`, on which `.Kind()` is a nil-pointer panic,
modelled by `Option.none`. -/
def dynKind : GoVal → Option GoKind
  | .vnil => Option.none
  | .vbool _ => Option.some .kbool
  | .vint _ => Option.some .kint64
  | .vuint _ => Option.some .kuint64
  | .vfloat _ => Option.some .kfloat64
  | .vstr _ => Option.some .kstring
  | .vbytes _ => Option.some .kslice
  | .vcomplex _ _ => Option.some .kcomplex128
  | .vtime _ => Option.some .kstruct
  | .vlist _ => Option.some .kslice
  | .vmap _ => Option.some .kmap
  | .vstrs _ => Option.some .kslice
  | .vbytess _ => Option.some .kslice

/-! ### The encoder methods

Each `Encode*` method stores a value and a kind tag in the node
(`encodeValue`); `Interface` flags null, `Array` flags a byte slice.
`EncodeString` collapses the empty string to an encoded nil.
`EncodeSpecial` formats a `time.Time` with `time.RFC3339Nano` and
encodes the text as a string. -/

def newDecoder (x : GoVal) (kind : GoKind) : Codec := .node kind x

def EncodeNil : Codec := .node .kinterface .vnil

def EncodeBool (x : Bool) : Codec := .node .kbool (.vbool x)

def EncodeInt (x : ℤ) : Codec := .node .kint64 (.vint x)

def EncodeUint (x : ℕ) : Codec := .node .kuint64 (.vuint x)

def EncodeBytes (x : List ℕ) : Codec := .node .karray (.vbytes x)

def EncodeFloat (x : ℚ) : Codec := .node .kfloat64 (.vfloat x)

def EncodeString (x : String) : Codec :=
  if x.length = 0 then EncodeNil else .node .kstring (.vstr x)

def EncodeComplex (re im : ℚ) : Codec := .node .kcomplex128 (.vcomplex re im)

def EncodeList (l : CodecList) : Codec := .node .kslice (.vlist l)

def EncodeMap (m : CodecMap) : Codec := .node .kmap (.vmap m)

/-- `EncodeSpecial` on a `time.Time` value. -/
def EncodeSpecialTime (t : GoTime) : Codec := EncodeString (formatRFC3339Nano t)

/-! ### The two wire forms

`AV1` is the SDK-v1 `*dyn.AttributeValue`: a record of optional fields,
of which the codec ever sets exactly one (`Set*` builders below); the
decoder dispatches on which field is non-nil, in source order.  `AV2`
is the SDK-v2 `dyn2Types.AttributeValue` interface: one member struct
per wire kind, dispatched by type switch.  The `NULL` member's unused
boolean payload is dropped. -/

mutual
inductive AV1 where
  | mk (nullF : Option Bool) (boolF : Option Bool) (nF : Option String)
       (bF : Option (List ℕ)) (sF : Option String) (lF : AV1ListOpt)
       (mF : AV1MapOpt) (ssF : Option (List String)) (nsF : Option (List String))
       (bsF : Option (List (List ℕ)))
deriving DecidableEq
inductive AV1ListOpt where
  | none
  | some (l : AV1List)
deriving DecidableEq
inductive AV1List where
  | nil
  | cons (a : AV1) (l : AV1List)
deriving DecidableEq
inductive AV1MapOpt where
  | none
  | some (m : AV1Map)
deriving DecidableEq
inductive AV1Map where
  | nil
  | cons (k : String) (a : AV1) (m : AV1Map)
deriving DecidableEq
end

/-- `new(dyn.AttributeValue).SetNULL(true)` (the package-level `nullValue`). -/
def av1NULL : AV1 := .mk (Option.some true) Option.none Option.none Option.none
  Option.none .none .none Option.none Option.none Option.none

/-- `new(dyn.AttributeValue).SetBOOL(b)`. -/
def av1BOOL (b : Bool) : AV1 := .mk Option.none (Option.some b) Option.none Option.none
  Option.none .none .none Option.none Option.none Option.none

/-- `new(dyn.AttributeValue).SetN(s)`. -/
def av1N (s : String) : AV1 := .mk Option.none Option.none (Option.some s) Option.none
  Option.none .none .none Option.none Option.none Option.none

/-- `new(dyn.AttributeValue).SetB(bs)`. -/
def av1B (bs : List ℕ) : AV1 := .mk Option.none Option.none Option.none (Option.some bs)
  Option.none .none .none Option.none Option.none Option.none

/-- `new(dyn.AttributeValue).SetS(s)`. -/
def av1S (s : String) : AV1 := .mk Option.none Option.none Option.none Option.none
  (Option.some s) .none .none Option.none Option.none Option.none

/-- `new(dyn.AttributeValue).SetL(l)`. -/
def av1L (l : AV1List) : AV1 := .mk Option.none Option.none Option.none Option.none
  Option.none (.some l) .none Option.none Option.none Option.none

/-- `new(dyn.AttributeValue).SetM(m)`. -/
def av1M (m : AV1Map) : AV1 := .mk Option.none Option.none Option.none Option.none
  Option.none .none (.some m) Option.none Option.none Option.none

/-- An `AttributeValue` with (only) the `SS` field set. -/
def av1SS (l : List String) : AV1 := .mk Option.none Option.none Option.none Option.none
  Option.none .none .none (Option.some l) Option.none Option.none

/-- An `AttributeValue` with (only) the `NS` field set. -/
def av1NS (l : List String) : AV1 := .mk Option.none Option.none Option.none Option.none
  Option.none .none .none Option.none (Option.some l) Option.none

/-- An `AttributeValue` with (only) the `BS` field set. -/
def av1BS (l : List (List ℕ)) : AV1 := .mk Option.none Option.none Option.none Option.none
  Option.none .none .none Option.none Option.none (Option.some l)

mutual
inductive AV2 where
  | avB (v : List ℕ)
  | avBOOL (v : Bool)
  | avBS (v : List (List ℕ))
  | avL (v : AV2List)
  | avM (v : AV2Map)
  | avN (v : String)
  | avNS (v : List String)
  | avNULL
  | avS (v : String)
  | avSS (v : List String)
deriving DecidableEq
inductive AV2List where
  | nil
  | cons (a : AV2) (l : AV2List)
deriving DecidableEq
inductive AV2Map where
  | nil
  | cons (k : String) (a : AV2) (m : AV2Map)
deriving DecidableEq
end

/-! ### Rendering a tagged-value tree to the wire
(`codec.asV1AttributeValue`, `codec.asV2AttributeValue`)

Each renderer switches on the node's kind tag; the payload is read by a
type assertion (a wrong dynamic type is a Go panic, `GoErr.panicked`).
Numbers are rendered with `strconv.FormatInt`/`FormatUint`/
`FormatFloat(·, 'f', -1, 64)`; a complex number becomes a list of the
two formatted parts.  A kind with no case falls through to
`gcerr.Newf(gcerr.InvalidArgument, nil, "unknown type to encode %s",
reflect.TypeOf(e.value).Kind())`, which names the kind of the
*payload's dynamic type* and dereferences nil when the payload is
`nil`. -/

mutual
def asV1AttributeValue : Codec → Except GoErr AV1
  | .node k v =>
    match k with
    | .kinterface => .ok av1NULL
    | .kbool =>
      match v with
      | .vbool b => .ok (av1BOOL b)
      | _ => .error .panicked
    | .kint64 =>
      match v with
      | .vint i => .ok (av1N (String.mk (renderInt i)))
      | _ => .error .panicked
    | .kuint64 =>
      match v with
      | .vuint u => .ok (av1N (String.mk (renderNat u)))
      | _ => .error .panicked
    | .karray =>
      match v with
      | .vbytes bs => .ok (av1B bs)
      | _ => .error .panicked
    | .kfloat64 =>
      match v with
      | .vfloat q => .ok (av1N (formatFloat q))
      | _ => .error .panicked
    | .kstring =>
      match v with
      | .vstr s => .ok (av1S s)
      | _ => .error .panicked
    | .kcomplex128 =>
      match v with
      | .vcomplex re im =>
        .ok (av1L (.cons (av1N (formatFloat re)) (.cons (av1N (formatFloat im)) .nil)))
      | _ => .error .panicked
    | .kslice =>
      match v with
      | .vlist l =>
        match asV1List l with
        | .error e => .error e
        | .ok s => .ok (av1L s)
      | _ => .error .panicked
    | .kmap =>
      match v with
      | .vmap m =>
        match asV1Map m with
        | .error e => .error e
        | .ok s => .ok (av1M s)
      | _ => .error .panicked
    | _ =>
      match dynKind v with
      | Option.some dk => .error (.invalidArgument ("unknown type to encode " ++ kindName dk))
      | Option.none => .error .panicked
def asV1List : CodecList → Except GoErr AV1List
  | .nil => .ok .nil
  | .cons c l =>
    match asV1AttributeValue c with
    | .error e => .error e
    | .ok a =>
      match asV1List l with
      | .error e => .error e
      | .ok s => .ok (.cons a s)
def asV1Map : CodecMap → Except GoErr AV1Map
  | .nil => .ok .nil
  | .cons key c m =>
    match asV1AttributeValue c with
    | .error e => .error e
    | .ok a =>
      match asV1Map m with
      | .error e => .error e
      | .ok s => .ok (.cons key a s)
end

mutual
def asV2AttributeValue : Codec → Except GoErr AV2
  | .node k v =>
    match k with
    | .kinterface => .ok .avNULL
    | .kbool =>
      match v with
      | .vbool b => .ok (.avBOOL b)
      | _ => .error .panicked
    | .kint64 =>
      match v with
      | .vint i => .ok (.avN (String.mk (renderInt i)))
      | _ => .error .panicked
    | .kuint64 =>
      match v with
      | .vuint u => .ok (.avN (String.mk (renderNat u)))
      | _ => .error .panicked
    | .karray =>
      match v with
      | .vbytes bs => .ok (.avB bs)
      | _ => .error .panicked
    | .kfloat64 =>
      match v with
      | .vfloat q => .ok (.avN (formatFloat q))
      | _ => .error .panicked
    | .kstring =>
      match v with
      | .vstr s => .ok (.avS s)
      | _ => .error .panicked
    | .kcomplex128 =>
      match v with
      | .vcomplex re im =>
        .ok (.avL (.cons (.avN (formatFloat re)) (.cons (.avN (formatFloat im)) .nil)))
      | _ => .error .panicked
    | .kslice =>
      match v with
      | .vlist l =>
        match asV2List l with
        | .error e => .error e
        | .ok s => .ok (.avL s)
      | _ => .error .panicked
    | .kmap =>
      match v with
      | .vmap m =>
        match asV2Map m with
        | .error e => .error e
        | .ok s => .ok (.avM s)
      | _ => .error .panicked
    | _ =>
      match dynKind v with
      | Option.some dk => .error (.invalidArgument ("unknown type to encode " ++ kindName dk))
      | Option.none => .error .panicked
def asV2List : CodecList → Except GoErr AV2List
  | .nil => .ok .nil
  | .cons c l =>
    match asV2AttributeValue c with
    | .error e => .error e
    | .ok a =>
      match asV2List l with
      | .error e => .error e
      | .ok s => .ok (.cons a s)
def asV2Map : CodecMap → Except GoErr AV2Map
  | .nil => .ok .nil
  | .cons key c m =>
    match asV2AttributeValue c with
    | .error e => .error e
    | .ok a =>
      match asV2Map m with
      | .error e => .error e
      | .ok s => .ok (.cons key a s)
end

/-! ### Decoding the wire into a tagged-value tree
(`newV1Decoder`, `newV2Decoder`)

A wire number is parsed with `strconv.ParseFloat(s, 64)` and narrowed:
`int64` if converting the float back from `int64(f)` is lossless, else
`uint64`, else `float64` (both decoders share this logic).  The v1
decoder tries `time.Parse(time.RFC3339Nano, *av.S)` on every wire
string and, on success, stores the parsed `time.Time` under the kind
tag `reflect.Chan`; the v2 decoder has no such attempt.  Set values
decode to a `reflect.Invalid`-tagged node holding the raw set payload.
A v1 value with no field set is the `fmt.Errorf` "not supported"
error. -/

def decodeNumber (s : String) : Except GoErr Codec :=
  match parseFloat s with
  | .error e => .error e
  | .ok f =>
    let i : ℤ := int64OfFloat f
    if roundF (i : ℚ) = f then .ok (newDecoder (.vint i) .kint64)
    else
      let u : ℕ := uint64OfFloat f
      if roundF (u : ℚ) = f then .ok (newDecoder (.vuint u) .kuint64)
      else .ok (newDecoder (.vfloat f) .kfloat64)

mutual
def newV1Decoder : AV1 → Except GoErr Codec
  | .mk nullF boolF nF bF sF lF mF ssF nsF bsF =>
    match nullF with
    | Option.some _ => .ok (newDecoder .vnil .kinterface)
    | Option.none =>
    match boolF with
    | Option.some b => .ok (newDecoder (.vbool b) .kbool)
    | Option.none =>
    match nF with
    | Option.some n => decodeNumber n
    | Option.none =>
    match bF with
    | Option.some bs => .ok (newDecoder (.vbytes bs) .karray)
    | Option.none =>
    match sF with
    | Option.some s =>
      match parseRFC3339Nano s with
      | Option.some t => .ok (newDecoder (.vtime t) .kchan)
      | Option.none => .ok (newDecoder (.vstr s) .kstring)
    | Option.none =>
    match lF with
    | .some l =>
      match newV1DecoderList l with
      | .error e => .error e
      | .ok s => .ok (newDecoder (.vlist s) .kslice)
    | .none =>
    match mF with
    | .some m =>
      match newV1DecoderMap m with
      | .error e => .error e
      | .ok s => .ok (newDecoder (.vmap s) .kmap)
    | .none =>
    match ssF with
    | Option.some ss => .ok (newDecoder (.vstrs ss) .kinvalid)
    | Option.none =>
    match nsF with
    | Option.some ns => .ok (newDecoder (.vstrs ns) .kinvalid)
    | Option.none =>
    match bsF with
    | Option.some bs => .ok (newDecoder (.vbytess bs) .kinvalid)
    | Option.none => .error (.errorsNew "awsdynamodb: AttributeValue not supported")
def newV1DecoderList : AV1List → Except GoErr CodecList
  | .nil => .ok .nil
  | .cons a l =>
    match newV1Decoder a with
    | .error e => .error e
    | .ok c =>
      match newV1DecoderList l with
      | .error e => .error e
      | .ok s => .ok (.cons c s)
def newV1DecoderMap : AV1Map → Except GoErr CodecMap
  | .nil => .ok .nil
  | .cons key a m =>
    match newV1Decoder a with
    | .error e => .error e
    | .ok c =>
      match newV1DecoderMap m with
      | .error e => .error e
      | .ok s => .ok (.cons key c s)
end

mutual
def newV2Decoder : AV2 → Except GoErr Codec
  | .avB bs => .ok (newDecoder (.vbytes bs) .karray)
  | .avBOOL b => .ok (newDecoder (.vbool b) .kbool)
  | .avBS bs => .ok (newDecoder (.vbytess bs) .kinvalid)
  | .avL l =>
    match newV2DecoderList l with
    | .error e => .error e
    | .ok s => .ok (newDecoder (.vlist s) .kslice)
  | .avM m =>
    match newV2DecoderMap m with
    | .error e => .error e
    | .ok s => .ok (newDecoder (.vmap s) .kmap)
  | .avN n => decodeNumber n
  | .avNS ns => .ok (newDecoder (.vstrs ns) .kinvalid)
  | .avNULL => .ok (newDecoder .vnil .kinterface)
  | .avS s => .ok (newDecoder (.vstr s) .kstring)
  | .avSS ss => .ok (newDecoder (.vstrs ss) .kinvalid)
def newV2DecoderList : AV2List → Except GoErr CodecList
  | .nil => .ok .nil
  | .cons a l =>
    match newV2Decoder a with
    | .error e => .error e
    | .ok c =>
      match newV2DecoderList l with
      | .error e => .error e
      | .ok s => .ok (.cons c s)
def newV2DecoderMap : AV2Map → Except GoErr CodecMap
  | .nil => .ok .nil
  | .cons key a m =>
    match newV2Decoder a with
    | .error e => .error e
    | .ok c =>
      match newV2DecoderMap m with
      | .error e => .error e
      | .ok s => .ok (.cons key c s)
end

/-! ### The read accessors on a decoded node

Go's accessors return `(value, ok)` pairs; a failed type assertion on
the payload is a panic, modelled as `GoErr.panicked` in `Except`.  The
`if d.value != nil` guards of `AsInt`/`AsUint`/`AsFloat` leave the Go
zero value in place, so a nil payload yields `(0, true)`.  `AsString`
requires the kind tag `reflect.String` before its nil-payload ("Empty
string is represented by NULL") branch can be reached. -/

def AsBool : Codec → Except GoErr (Bool × Bool)
  | .node k v =>
    if k ≠ .kbool then .ok (false, false)
    else
      match v with
      | .vbool b => .ok (b, true)
      | _ => .error .panicked

def AsNull : Codec → Bool
  | .node k _ => k = .kinterface

def AsString : Codec → Except GoErr (String × Bool)
  | .node k v =>
    if k ≠ .kstring then .ok ("", false)
    else
      match v with
      | .vnil => .ok ("", true)
      | .vstr s => .ok (s, true)
      | _ => .error .panicked

def AsInt : Codec → Except GoErr (ℤ × Bool)
  | .node k v =>
    match k with
    | .kint64 =>
      match v with
      | .vnil => .ok (0, true)
      | .vint i => .ok (i, true)
      | _ => .error .panicked
    | .kuint64 =>
      match v with
      | .vnil => .ok (0, true)
      | .vuint u => .ok (int64OfUint64 u, true)
      | _ => .error .panicked
    | _ => .ok (0, false)

def AsUint : Codec → Except GoErr (ℕ × Bool)
  | .node k v =>
    match k with
    | .kint64 =>
      match v with
      | .vnil => .ok (0, true)
      | .vint i => .ok (uint64OfInt64 i, true)
      | _ => .error .panicked
    | .kuint64 =>
      match v with
      | .vnil => .ok (0, true)
      | .vuint u => .ok (u, true)
      | _ => .error .panicked
    | _ => .ok (0, false)

def AsFloat : Codec → Except GoErr (ℚ × Bool)
  | .node k v =>
    match k with
    | .kint64 =>
      match v with
      | .vnil => .ok (0, true)
      | .vint i => .ok (roundF (i : ℚ), true)
      | _ => .error .panicked
    | .kuint64 =>
      match v with
      | .vnil => .ok (0, true)
      | .vuint u => .ok (roundF (u : ℚ), true)
      | _ => .error .panicked
    | .kfloat64 =>
      match v with
      | .vnil => .ok (0, true)
      | .vfloat q => .ok (q, true)
      | _ => .error .panicked
    | _ => .ok (0, false)

def AsComplex : Codec → Except GoErr ((ℚ × ℚ) × Bool)
  | .node k v =>
    if k = .kcomplex128 then
      match v with
      | .vcomplex re im => .ok ((re, im), true)
      | _ => .error .panicked
    else if k = .kslice then
      match v with
      | .vlist l =>
        match l with
        | .cons c0 (.cons c1 .nil) =>
          match AsFloat c0 with
          | .error e => .error e
          | .ok (r, ok0) =>
            if ok0 = false then .ok ((0, 0), false)
            else
              match AsFloat c1 with
              | .error e => .error e
              | .ok (i, ok1) =>
                if ok1 = false then .ok ((0, 0), false)
                else .ok ((r, i), true)
        | _ => .ok ((0, 0), false)
      | _ => .error .panicked
    else .ok ((0, 0), false)

def AsBytes : Codec → Except GoErr (List ℕ × Bool)
  | .node k v =>
    if k ≠ .karray then .ok ([], false)
    else
      match v with
      | .vbytes bs => .ok (bs, true)
      | _ => .error .panicked

def ListLen : Codec → Except GoErr (ℕ × Bool)
  | .node k v =>
    if k ≠ .kslice then .ok (0, false)
    else
      match v with
      | .vlist l => .ok (l.length, true)
      | _ => .error .panicked

def MapLen : Codec → Except GoErr (ℕ × Bool)
  | .node k v =>
    if k ≠ .kmap then .ok (0, false)
    else
      match v with
      | .vmap m => .ok (m.length, true)
      | _ => .error .panicked

/-- The exact text of the tree decoder's unsupported-set error. -/
def unsupportedTypesMsg : String :=
  "unsupported type, the docstore driver for DynamoDB does\n\t\tnot decode DynamoDB set types, such as string set, number set and binary set"

/-- The destination type handed to `AsSpecial` (`v.Type()`): the claims
only distinguish `time.Time` from everything else. -/
inductive DestTy where
  | goTime
  | other
deriving DecidableEq, Repr

/-- `codec.AsSpecial` returns `(handled, value, err)`: an
`Invalid`-kinded node (a decoded set) is always handled with the
unsupported-types error; a `time.Time` destination reads a
`reflect.Chan`-kinded node's payload, any other kind being the
"expected string field" error with `handled = false`. -/
def AsSpecial (d : Codec) (dest : DestTy) : Except GoErr (Bool × Option GoTime × Option String)
  :=
  match d with
  | .node k v =>
    if k = .kinvalid then .ok (true, Option.none, Option.some unsupportedTypesMsg)
    else
      match dest with
      | .goTime =>
        if k = .kchan then
          match v with
          | .vtime t => .ok (true, Option.some t, Option.none)
          | _ => .error .panicked
        else .ok (false, Option.none, Option.some "expected string field for time.Time")
      | .other => .ok (false, Option.none, Option.none)

/-! ### The older dual decoder of `src/unnamed/part_000`

`type decoder struct { av1 *dyn.AttributeValue; av2 dyn2Types.AttributeValue }`
wraps the raw wire value lazily; only its string accessor and special
hook matter to the claims. -/

def AV1.nullF : AV1 → Option Bool
  | .mk x _ _ _ _ _ _ _ _ _ => x

def AV1.sF : AV1 → Option String
  | .mk _ _ _ _ x _ _ _ _ _ => x

def AV1.ssF : AV1 → Option (List String)
  | .mk _ _ _ _ _ _ _ x _ _ => x

def AV1.nsF : AV1 → Option (List String)
  | .mk _ _ _ _ _ _ _ _ x _ => x

def AV1.bsF : AV1 → Option (List (List ℕ))
  | .mk _ _ _ _ _ _ _ _ _ x => x

structure Dec2 where
  av1 : Option AV1
  av2 : Option AV2

/-- `decoder.AsString` of `part_000`: wire `NULL` yields `("", true)`
in both variants ("Empty string is represented by NULL"). -/
def Dec2.AsString (d : Dec2) : String × Bool :=
  match d.av1 with
  | Option.some a =>
    if a.nullF.isSome then ("", true)
    else
      match a.sF with
      | Option.none => ("", false)
      | Option.some s => (s, true)
  | Option.none =>
  match d.av2 with
  | Option.some a =>
    match a with
    | .avNULL => ("", true)
    | .avS s => (s, true)
    | _ => ("", false)
  | Option.none => ("", false)

/-- The unsupported-set message of `part_000` (one tab of raw-string
indentation instead of two). -/
def unsupportedTypesMsgP0 : String :=
  "unsupported type, the docstore driver for DynamoDB does\n\tnot decode DynamoDB set types, such as string set, number set and binary set"

/-- `decoder.asV1Special` of `part_000`: sets are rejected up front;
a `time.Time` destination parses the wire string on demand (`err` is a
placeholder for the concrete `time.Parse` error value). -/
def Dec2.asV1Special (a : AV1) (dest : DestTy) : Bool × Option GoTime × Option String :=
  if a.ssF.isSome || a.nsF.isSome || a.bsF.isSome then
    (true, Option.none, Option.some unsupportedTypesMsgP0)
  else
    match dest with
    | .goTime =>
      match a.sF with
      | Option.none => (false, Option.none, Option.some "expected string field for time.Time")
      | Option.some s =>
        match parseRFC3339Nano s with
        | Option.some t => (true, Option.some t, Option.none)
        | Option.none => (true, Option.none, Option.some "cannot parse as RFC3339")
    | .other => (false, Option.none, Option.none)

/-- `decoder.asV2Special` of `part_000`. -/
def Dec2.asV2Special (a : AV2) (dest : DestTy) : Bool × Option GoTime × Option String :=
  match a with
  | .avSS _ => (true, Option.none, Option.some unsupportedTypesMsgP0)
  | .avNS _ => (true, Option.none, Option.some unsupportedTypesMsgP0)
  | .avBS _ => (true, Option.none, Option.some unsupportedTypesMsgP0)
  | _ =>
    match dest with
    | .goTime =>
      match a with
      | .avNULL => (false, Option.none, Option.some "expected string field for time.Time")
      | .avS s =>
        match parseRFC3339Nano s with
        | Option.some t => (true, Option.some t, Option.none)
        | Option.none => (true, Option.none, Option.some "cannot parse as RFC3339")
      | _ => (false, Option.none, Option.none)
    | .other => (false, Option.none, Option.none)

/-! ### The kind/payload consistency invariant

`wellFormed` says the payload's dynamic type is the one every accessor
asserts for the node's kind tag (nested nodes included); it is exactly
the discipline `newDecoder` callers follow.  It implies no accessor
can reach a failed type assertion (`GoErr.panicked`). -/

mutual
def wellFormed : Codec → Bool
  | .node k v =>
    match k, v with
    | .kinterface, .vnil => true
    | .kbool, .vbool _ => true
    | .kint64, .vint _ => true
    | .kuint64, .vuint _ => true
    | .kfloat64, .vfloat _ => true
    | .karray, .vbytes _ => true
    | .kchan, .vtime _ => true
    | .kstring, .vstr _ => true
    | .kslice, .vlist l => wellFormedList l
    | .kmap, .vmap m => wellFormedMap m
    | .kinvalid, .vstrs _ => true
    | .kinvalid, .vbytess _ => true
    | _, _ => false
def wellFormedList : CodecList → Bool
  | .nil => true
  | .cons c l => wellFormed c && wellFormedList l
def wellFormedMap : CodecMap → Bool
  | .nil => true
  | .cons _ c m => wellFormed c && wellFormedMap m
end

/-! ### Documents and key-field projection (`encodeDocKeyFields`)

A document is an association list of field names to Go field values;
`driver.Document.GetField` fails on a missing field, and
`encodeValue` (`driver.Encode` into a fresh codec) is modelled on the
field-value universe the claims need, including an unencodable value
(`driver.Encode` rejects e.g. a function-typed field). -/

inductive FieldVal where
  | fstr (s : String)
  | fint (i : ℤ)
  | ffloat (q : ℚ)
  | ftime (t : GoTime)
  | fbad (msg : String)
deriving DecidableEq

def DocModel : Type := List (String × FieldVal)

def getField (doc : DocModel) (f : String) : Except GoErr FieldVal :=
  match doc.find? (fun p => p.1 = f) with
  | Option.some p => .ok p.2
  | Option.none => .error (.invalidArgument ("field " ++ f ++ " not found"))

def encodeValue : FieldVal → Except GoErr Codec
  | .fstr s => .ok (EncodeString s)
  | .fint i => .ok (EncodeInt i)
  | .ffloat q => .ok (EncodeFloat q)
  | .ftime t => .ok (EncodeSpecialTime t)
  | .fbad msg => .error (.invalidArgument msg)

/-- Go map assignment `m[k] = c` on the association-list model. -/
def mapSet (m : List (String × Codec)) (k : String) (c : Codec) : List (String × Codec) :=
  if (m.find? (fun p => p.1 = k)).isSome then
    m.map (fun p => if p.1 = k then (k, c) else p)
  else m ++ [(k, c)]

/-- The `set` closure of `encodeDocKeyFields`: read one field, encode
it, store it in the map. -/
def setKeyField (doc : DocModel) (f : String) (m : List (String × Codec)) :
    Except GoErr (List (String × Codec)) :=
  match getField doc f with
  | .error e => .error e
  | .ok v =>
    match encodeValue v with
    | .error e => .error e
    | .ok c => .ok (mapSet m f c)

/-- `encodeDocKeyFields doc pkey skey`: the partition key is always
read; the sort key only when its name is non-empty. -/
def encodeDocKeyFields (doc : DocModel) (pkey skey : String) :
    Except GoErr (List (String × Codec)) :=
  match setKeyField doc pkey [] with
  | .error e => .error e
  | .ok m =>
    if skey ≠ "" then
      match setKeyField doc skey m with
      | .error e => .error e
      | .ok m2 => .ok m2
    else .ok m

/-! ### Behaviour of the shared numeric narrowing -/

theorem truncQ_intCast (z : ℤ) : truncQ (z : ℚ) = z := by
  unfold truncQ
  rw [Rat.intCast_num, Rat.intCast_den]
  simp

theorem int64OfFloat_intCast_small (z : ℤ) (h : |z| < 2 ^ 63) :
    int64OfFloat (z : ℚ) = z := by
  unfold int64OfFloat
  rw [truncQ_intCast]
  rw [abs_lt] at h
  rw [if_pos (by constructor <;> omega)]

theorem decodeNumber_eval (s : String) (f : ℚ) (hp : parseFloat s = .ok f) :
    decodeNumber s =
      (if roundF ((int64OfFloat f : ℤ) : ℚ) = f then
        .ok (newDecoder (.vint (int64OfFloat f)) .kint64)
      else if roundF ((uint64OfFloat f : ℕ) : ℚ) = f then
        .ok (newDecoder (.vuint (uint64OfFloat f)) .kuint64)
      else .ok (newDecoder (.vfloat f) .kfloat64)) := by
  unfold decodeNumber
  rw [hp]

theorem decodeNumber_int_small (z : ℤ) (h : |z| ≤ 2 ^ 53) :
    decodeNumber (String.mk (renderInt z)) = .ok (newDecoder (.vint z) .kint64) := by
  rw [decodeNumber_eval _ _ (parseFloat_renderInt z h)]
  have h63 : |z| < 2 ^ 63 := lt_of_le_of_lt h (by norm_num)
  rw [int64OfFloat_intCast_small z h63, if_pos (roundF_int_small z h)]

/-- Whatever branch the narrowing takes, the float accessor on the
resulting node recovers the parsed value, and the node is
kind/payload-consistent. -/
theorem decodeNumber_asFloat (s : String) (f : ℚ) (hp : parseFloat s = .ok f) :
    ∃ c, decodeNumber s = .ok c ∧ AsFloat c = .ok (f, true) ∧ wellFormed c = true := by
  rw [decodeNumber_eval s f hp]
  have hAFi : ∀ i : ℤ, AsFloat (newDecoder (.vint i) .kint64) = .ok (roundF (i : ℚ), true) :=
    fun i => rfl
  have hAFu : ∀ u : ℕ, AsFloat (newDecoder (.vuint u) .kuint64) = .ok (roundF (u : ℚ), true) :=
    fun u => rfl
  by_cases h1 : roundF ((int64OfFloat f : ℤ) : ℚ) = f
  · rw [if_pos h1]
    exact ⟨_, rfl, by rw [hAFi, h1], rfl⟩
  · rw [if_neg h1]
    by_cases h2 : roundF ((uint64OfFloat f : ℕ) : ℚ) = f
    · rw [if_pos h2]
      exact ⟨_, rfl, by rw [hAFu, h2], rfl⟩
    · rw [if_neg h2]
      exact ⟨_, rfl, rfl, rfl⟩

theorem decodeNumber_wf (s : String) (c : Codec) (h : decodeNumber s = .ok c) :
    wellFormed c = true := by
  cases hp : parseFloat s with
  | error e =>
    unfold decodeNumber at h
    rw [hp] at h
    exact absurd h (by simp)
  | ok f =>
    rw [decodeNumber_eval s f hp] at h
    by_cases h1 : roundF ((int64OfFloat f : ℤ) : ℚ) = f
    · rw [if_pos h1] at h
      cases h
      rfl
    · rw [if_neg h1] at h
      by_cases h2 : roundF ((uint64OfFloat f : ℕ) : ℚ) = f
      · rw [if_pos h2] at h
        cases h
        rfl
      · rw [if_neg h2] at h
        cases h
        rfl

/-! ### Claim theorems -/

/-- C9: the tree decoder's integer accessors coerce across signedness
with two's-complement wraparound and never reject an out-of-range
value: reading an unsigned node holding `u` as a signed integer always
succeeds and returns `int64(u)`, which is `u - 2^64` whenever `u`
exceeds the int64 range; reading a signed node holding a negative `i`
as an unsigned integer always succeeds and returns `uint64(i) =
i + 2^64`. -/
theorem c9_twos_complement_coercion :
    (∀ u : ℕ, AsInt (newDecoder (.vuint u) .kuint64) = .ok (int64OfUint64 u, true)) ∧
    (∀ u : ℕ, u < 2 ^ 64 → 2 ^ 63 ≤ u → int64OfUint64 u = (u : ℤ) - 2 ^ 64) ∧
    (∀ i : ℤ, AsUint (newDecoder (.vint i) .kint64) = .ok (uint64OfInt64 i, true)) ∧
    (∀ i : ℤ, -(2 ^ 63) ≤ i → i < 0 → (uint64OfInt64 i : ℤ) = i + 2 ^ 64) := by
  refine ⟨fun u => rfl, fun u h64 h63 => ?_, fun i => rfl, fun i hlo hneg => ?_⟩
  · unfold int64OfUint64
    rw [if_neg (by omega)]
  · unfold uint64OfInt64
    have hmod : i % (2 ^ 64 : ℤ) = i + 2 ^ 64 := by omega
    rw [hmod]
    omega

/-- Witness for C9 at `u = 2^63` and `i = -5`. -/
theorem c9_twos_complement_coercion_witness :
    AsInt (newDecoder (.vuint (2 ^ 63)) .kuint64) = .ok ((2 ^ 63 : ℤ) - 2 ^ 64, true) ∧
    (uint64OfInt64 (-5) : ℤ) = -5 + 2 ^ 64 := by
  constructor
  · rw [c9_twos_complement_coercion.1 (2 ^ 63),
      c9_twos_complement_coercion.2.1 (2 ^ 63) (by norm_num) (by norm_num)]
    norm_num
  · exact c9_twos_complement_coercion.2.2.2 (-5) (by norm_num) (by norm_num)

/-- C5: every wire value of a set kind (string set, number set or
binary set), in either wire variant, decodes to a `reflect.Invalid`
node that `AsSpecial` always intercepts — for every destination type —
with the unsupported-type error, whose text names all three rejected
set kinds; the set is neither dropped to null nor substituted. -/
theorem c5_sets_rejected :
    (∀ ss, newV1Decoder (av1SS ss) = .ok (newDecoder (.vstrs ss) .kinvalid)) ∧
    (∀ ns, newV1Decoder (av1NS ns) = .ok (newDecoder (.vstrs ns) .kinvalid)) ∧
    (∀ bs, newV1Decoder (av1BS bs) = .ok (newDecoder (.vbytess bs) .kinvalid)) ∧
    (∀ ss, newV2Decoder (.avSS ss) = .ok (newDecoder (.vstrs ss) .kinvalid)) ∧
    (∀ ns, newV2Decoder (.avNS ns) = .ok (newDecoder (.vstrs ns) .kinvalid)) ∧
    (∀ bs, newV2Decoder (.avBS bs) = .ok (newDecoder (.vbytess bs) .kinvalid)) ∧
    (∀ v dest, AsSpecial (.node .kinvalid v) dest
      = .ok (true, Option.none, Option.some unsupportedTypesMsg)) ∧
    (∀ v, AsNull (.node .kinvalid v) = false) ∧
    (∃ x y, unsupportedTypesMsg = x ++ "string set" ++ y) ∧
    (∃ x y, unsupportedTypesMsg = x ++ "number set" ++ y) ∧
    (∃ x y, unsupportedTypesMsg = x ++ "binary set" ++ y) := by
  refine ⟨fun ss => rfl, fun ns => rfl, fun bs => rfl, fun ss => rfl, fun ns => rfl,
    fun bs => rfl, fun v dest => rfl, fun v => rfl, ?_, ?_, ?_⟩
  · exact ⟨"unsupported type, the docstore driver for DynamoDB does\n\t\tnot decode DynamoDB set types, such as ",
      ", number set and binary set", rfl⟩
  · exact ⟨"unsupported type, the docstore driver for DynamoDB does\n\t\tnot decode DynamoDB set types, such as string set, ",
      " and binary set", rfl⟩
  · exact ⟨"unsupported type, the docstore driver for DynamoDB does\n\t\tnot decode DynamoDB set types, such as string set, number set and ",
      "", rfl⟩

/-- C3: encoding the empty string and encoding nil both produce the
canonical wire null in each variant — but in the tree codec, reading
the decoded wire null back through the string accessor does NOT yield
`("", true)`: the null decodes to a `reflect.Interface`-kinded node,
`AsString` demands the kind `reflect.String` before its nil-payload
branch can apply, and therefore returns `("", false)`, unlike the
`part_000` revision of the accessor (and the tree accessor's own
"Empty string is represented by NULL" comment), which yields
`("", true)` in both wire variants. -/
theorem c3_null_collapse_divergence :
    EncodeString "" = EncodeNil ∧
    asV1AttributeValue (EncodeString "") = .ok av1NULL ∧
    asV2AttributeValue (EncodeString "") = .ok .avNULL ∧
    newV1Decoder av1NULL = .ok (newDecoder .vnil .kinterface) ∧
    newV2Decoder .avNULL = .ok (newDecoder .vnil .kinterface) ∧
    AsString (newDecoder .vnil .kinterface) = .ok ("", false) ∧
    Dec2.AsString ⟨Option.some av1NULL, Option.none⟩ = ("", true) ∧
    Dec2.AsString ⟨Option.none, Option.some .avNULL⟩ = ("", true) := by
  exact ⟨rfl, rfl, rfl, rfl, rfl, rfl, rfl, rfl⟩

/-- C8: rendering a node whose kind tag is outside the rendered set
{null, bool, int64, uint64, float64, bytes, string, complex128, list,
map} reaches the final `gcerr.Newf` in both wire variants — but the
error names the kind of the *payload's dynamic type*
(`reflect.TypeOf(e.value).Kind()`), not the offending kind tag, and
when the payload is nil the `Kind()` call is a nil dereference, i.e. a
panic rather than an error. -/
theorem c8_unknown_kind_error (k : GoKind) (v : GoVal)
    (hk : k ∉ ([.kinterface, .kbool, .kint64, .kuint64, .karray, .kfloat64, .kstring,
      .kcomplex128, .kslice, .kmap] : List GoKind)) :
    (∀ dk, dynKind v = Option.some dk →
      asV1AttributeValue (.node k v)
          = .error (.invalidArgument ("unknown type to encode " ++ kindName dk)) ∧
      asV2AttributeValue (.node k v)
          = .error (.invalidArgument ("unknown type to encode " ++ kindName dk))) ∧
    (dynKind v = Option.none →
      asV1AttributeValue (.node k v) = .error .panicked ∧
      asV2AttributeValue (.node k v) = .error .panicked) := by
  constructor
  · intro dk hdk
    cases k <;> first
      | exact absurd (by decide) hk
      | (simp [asV1AttributeValue, asV2AttributeValue, hdk])
  · intro hdk
    cases k <;> first
      | exact absurd (by decide) hk
      | (simp [asV1AttributeValue, asV2AttributeValue, hdk])

/-- Counterexample for C8's original form: a `reflect.Chan`-tagged node
with a nil payload panics instead of returning an error, and with a
`time.Time` payload the error names `struct` — the payload's kind —
instead of the offending tag `chan`. -/
theorem c8_unknown_kind_error_counterexample :
    asV1AttributeValue (.node .kchan .vnil) = .error .panicked ∧
    asV1AttributeValue (.node .kchan (.vtime ⟨2020, 1, 1, 0, 0, 0, 0, 0⟩))
      = .error (.invalidArgument "unknown type to encode struct") ∧
    "unknown type to encode struct" ≠ "unknown type to encode chan" := by
  exact ⟨rfl, rfl, by decide⟩

/-- Witness for C8 at the kind `func` and a string payload. -/
theorem c8_unknown_kind_error_witness :
    asV1AttributeValue (.node .kfunc (.vstr "x"))
      = .error (.invalidArgument ("unknown type to encode " ++ kindName .kstring)) :=
  ((c8_unknown_kind_error .kfunc (.vstr "x") (by decide)).1 .kstring rfl).1

theorem mapSet_keys (m : List (String × Codec)) (f k : String) (c : Codec) :
    k ∈ (mapSet m f c).map Prod.fst ↔ k ∈ m.map Prod.fst ∨ k = f := by
  unfold mapSet
  by_cases h : (m.find? (fun p => p.1 = f)).isSome
  · rw [if_pos h]
    have hkeys : (m.map (fun p => if p.1 = f then (f, c) else p)).map Prod.fst
        = m.map Prod.fst := by
      rw [List.map_map]
      apply List.map_congr_left
      intro p hp
      by_cases hpf : p.1 = f
      · simp [Function.comp, hpf]
      · simp [Function.comp, hpf]
    rw [hkeys]
    constructor
    · exact Or.inl
    · rintro (hk | hk)
      · exact hk
      · subst hk
        rw [Option.isSome_iff_exists] at h
        obtain ⟨p, hp⟩ := h
        have hmem := List.mem_of_find?_eq_some hp
        have hpf := List.find?_some hp
        simp only [decide_eq_true_eq] at hpf
        rw [← hpf]
        exact List.mem_map_of_mem Prod.fst hmem
  · rw [if_neg h]
    simp

theorem setKeyField_ok_shape (doc : DocModel) (f : String) (m m' : List (String × Codec))
    (h : setKeyField doc f m = .ok m') : ∃ c, m' = mapSet m f c := by
  unfold setKeyField at h
  cases h1 : getField doc f with
  | error e => rw [h1] at h; exact absurd h (by simp)
  | ok v =>
    rw [h1] at h
    dsimp only at h
    cases h2 : encodeValue v with
    | error e => rw [h2] at h; exact absurd h (by simp)
    | ok c =>
      rw [h2] at h
      simp only [Except.ok.injEq] at h
      exact ⟨c, h.symm⟩

/-- C7: key-field projection reads only the partition-key and sort-key
fields: on success the produced wire map's key set is exactly `{pkey}`
when the sort key name is empty and exactly `{pkey, skey}` otherwise;
a failure to read or encode the partition-key field (or a non-empty
sort-key field) propagates as the overall failure; and the result
depends on the document only through those two named fields. -/
theorem c7_key_projection (doc : DocModel) (pkey skey : String) :
    (∀ m, encodeDocKeyFields doc pkey skey = .ok m →
      ∀ k, k ∈ m.map Prod.fst ↔ (k = pkey ∨ (skey ≠ "" ∧ k = skey))) ∧
    (∀ e, setKeyField doc pkey [] = .error e →
      encodeDocKeyFields doc pkey skey = .error e) ∧
    (∀ m e, setKeyField doc pkey [] = .ok m → skey ≠ "" → setKeyField doc skey m = .error e →
      encodeDocKeyFields doc pkey skey = .error e) ∧
    (∀ doc2 : DocModel, getField doc pkey = getField doc2 pkey →
      getField doc skey = getField doc2 skey →
      encodeDocKeyFields doc pkey skey = encodeDocKeyFields doc2 pkey skey) := by
  refine ⟨?_, ?_, ?_, ?_⟩
  · intro m hm k
    unfold encodeDocKeyFields at hm
    cases h1 : setKeyField doc pkey [] with
    | error e => rw [h1] at hm; exact absurd hm (by simp)
    | ok m1 =>
      rw [h1] at hm
      dsimp only at hm
      obtain ⟨c1, hc1⟩ := setKeyField_ok_shape doc pkey [] m1 h1
      by_cases hs : skey ≠ ""
      · rw [if_pos hs] at hm
        cases h2 : setKeyField doc skey m1 with
        | error e => rw [h2] at hm; exact absurd hm (by simp)
        | ok m2 =>
          rw [h2] at hm
          dsimp only at hm
          simp only [Except.ok.injEq] at hm
          subst hm
          obtain ⟨c2, hc2⟩ := setKeyField_ok_shape doc skey m1 m2 h2
          subst hc2 hc1
          rw [mapSet_keys, mapSet_keys]
          simp only [List.map_nil, List.not_mem_nil, false_or]
          constructor
          · rintro (hk | hk)
            · exact Or.inl hk
            · exact Or.inr ⟨hs, hk⟩
          · rintro (hk | ⟨_, hk⟩)
            · exact Or.inl hk
            · exact Or.inr hk
      · rw [if_neg hs] at hm
        simp only [Except.ok.injEq] at hm
        subst hm
        subst hc1
        rw [mapSet_keys]
        simp only [List.map_nil, List.not_mem_nil, false_or]
        push_neg at hs
        constructor
        · exact Or.inl
        · rintro (hk | ⟨hne, _⟩)
          · exact hk
          · exact absurd hs hne
  · intro e he
    unfold encodeDocKeyFields
    rw [he]
  · intro m e hm hs he
    unfold encodeDocKeyFields
    rw [hm]
    dsimp only
    rw [if_pos hs, he]
  · intro doc2 h1 h2
    unfold encodeDocKeyFields setKeyField
    rw [h1, h2]

/-- Witness for C7: projecting `pkey = "id"` out of the document
`{"id": "abc", "ts": 7}` with no sort key yields a wire map whose only
key is `"id"`. -/
theorem c7_key_projection_witness :
    "id" ∈ ([(("id" : String), EncodeString "abc")].map Prod.fst) ∧
    ¬ ("ts" ∈ ([(("id" : String), EncodeString "abc")].map Prod.fst)) := by
  have h := (c7_key_projection [("id", .fstr "abc"), ("ts", .fint 7)] "id" "").1
    [("id", EncodeString "abc")] (by rfl)
  constructor
  · exact (h "id").mpr (Or.inl rfl)
  · intro hmem
    rcases (h "ts").mp hmem with hk | ⟨hne, _⟩
    · exact absurd hk (by decide)
    · exact hne rfl

mutual
theorem wf_newV1 (av : AV1) (c : Codec) (h : newV1Decoder av = .ok c) :
    wellFormed c = true := by
  obtain ⟨nullF, boolF, nF, bF, sF, lF, mF, ssF, nsF, bsF⟩ := av
  cases nullF with
  | some b0 =>
    simp only [newV1Decoder] at h
    simp only [Except.ok.injEq] at h
    subst h
    rfl
  | none =>
  cases boolF with
  | some b =>
    simp only [newV1Decoder] at h
    simp only [Except.ok.injEq] at h
    subst h
    rfl
  | none =>
  cases nF with
  | some n =>
    simp only [newV1Decoder] at h
    exact decodeNumber_wf n c h
  | none =>
  cases bF with
  | some bs0 =>
    simp only [newV1Decoder] at h
    simp only [Except.ok.injEq] at h
    subst h
    rfl
  | none =>
  cases sF with
  | some s =>
    simp only [newV1Decoder] at h
    cases hps : parseRFC3339Nano s with
    | some t =>
      rw [hps] at h
      simp only [Except.ok.injEq] at h
      subst h
      rfl
    | none =>
      rw [hps] at h
      simp only [Except.ok.injEq] at h
      subst h
      rfl
  | none =>
  cases lF with
  | some l =>
    simp only [newV1Decoder] at h
    cases hl : newV1DecoderList l with
    | error e =>
      rw [hl] at h
      exact absurd h (by simp)
    | ok s =>
      rw [hl] at h
      simp only [Except.ok.injEq] at h
      subst h
      simp only [newDecoder, wellFormed]
      exact wf_newV1List l s hl
  | none =>
  cases mF with
  | some m =>
    simp only [newV1Decoder] at h
    cases hm : newV1DecoderMap m with
    | error e =>
      rw [hm] at h
      exact absurd h (by simp)
    | ok s =>
      rw [hm] at h
      simp only [Except.ok.injEq] at h
      subst h
      simp only [newDecoder, wellFormed]
      exact wf_newV1Map m s hm
  | none =>
  cases ssF with
  | some ss =>
    simp only [newV1Decoder] at h
    simp only [Except.ok.injEq] at h
    subst h
    rfl
  | none =>
  cases nsF with
  | some ns =>
    simp only [newV1Decoder] at h
    simp only [Except.ok.injEq] at h
    subst h
    rfl
  | none =>
  cases bsF with
  | some bs0 =>
    simp only [newV1Decoder] at h
    simp only [Except.ok.injEq] at h
    subst h
    rfl
  | none =>
    simp only [newV1Decoder] at h
    exact absurd h (by simp)
theorem wf_newV1List (l : AV1List) (s : CodecList) (h : newV1DecoderList l = .ok s) :
    wellFormedList s = true := by
  cases l with
  | nil =>
    simp only [newV1DecoderList] at h
    simp only [Except.ok.injEq] at h
    subst h
    rfl
  | cons a t =>
    simp only [newV1DecoderList] at h
    cases ha : newV1Decoder a with
    | error e =>
      rw [ha] at h
      exact absurd h (by simp)
    | ok c =>
      rw [ha] at h
      cases ht : newV1DecoderList t with
      | error e =>
        rw [ht] at h
        exact absurd h (by simp)
      | ok s2 =>
        rw [ht] at h
        simp only [Except.ok.injEq] at h
        subst h
        simp only [wellFormedList, Bool.and_eq_true]
        exact ⟨wf_newV1 a c ha, wf_newV1List t s2 ht⟩
theorem wf_newV1Map (m : AV1Map) (s : CodecMap) (h : newV1DecoderMap m = .ok s) :
    wellFormedMap s = true := by
  cases m with
  | nil =>
    simp only [newV1DecoderMap] at h
    simp only [Except.ok.injEq] at h
    subst h
    rfl
  | cons key a t =>
    simp only [newV1DecoderMap] at h
    cases ha : newV1Decoder a with
    | error e =>
      rw [ha] at h
      exact absurd h (by simp)
    | ok c =>
      rw [ha] at h
      cases ht : newV1DecoderMap t with
      | error e =>
        rw [ht] at h
        exact absurd h (by simp)
      | ok s2 =>
        rw [ht] at h
        simp only [Except.ok.injEq] at h
        subst h
        simp only [wellFormedMap, Bool.and_eq_true]
        exact ⟨wf_newV1 a c ha, wf_newV1Map t s2 ht⟩
end

mutual
theorem wf_newV2 (av : AV2) (c : Codec) (h : newV2Decoder av = .ok c) :
    wellFormed c = true := by
  cases av with
  | avB bs =>
    simp only [newV2Decoder] at h
    simp only [Except.ok.injEq] at h
    subst h
    rfl
  | avBOOL b =>
    simp only [newV2Decoder] at h
    simp only [Except.ok.injEq] at h
    subst h
    rfl
  | avBS bs =>
    simp only [newV2Decoder] at h
    simp only [Except.ok.injEq] at h
    subst h
    rfl
  | avL l =>
    simp only [newV2Decoder] at h
    cases hl : newV2DecoderList l with
    | error e =>
      rw [hl] at h
      exact absurd h (by simp)
    | ok s =>
      rw [hl] at h
      simp only [Except.ok.injEq] at h
      subst h
      simp only [newDecoder, wellFormed]
      exact wf_newV2List l s hl
  | avM m =>
    simp only [newV2Decoder] at h
    cases hm : newV2DecoderMap m with
    | error e =>
      rw [hm] at h
      exact absurd h (by simp)
    | ok s =>
      rw [hm] at h
      simp only [Except.ok.injEq] at h
      subst h
      simp only [newDecoder, wellFormed]
      exact wf_newV2Map m s hm
  | avN n =>
    simp only [newV2Decoder] at h
    exact decodeNumber_wf n c h
  | avNS ns =>
    simp only [newV2Decoder] at h
    simp only [Except.ok.injEq] at h
    subst h
    rfl
  | avNULL =>
    simp only [newV2Decoder] at h
    simp only [Except.ok.injEq] at h
    subst h
    rfl
  | avS s =>
    simp only [newV2Decoder] at h
    simp only [Except.ok.injEq] at h
    subst h
    rfl
  | avSS ss =>
    simp only [newV2Decoder] at h
    simp only [Except.ok.injEq] at h
    subst h
    rfl
theorem wf_newV2List (l : AV2List) (s : CodecList) (h : newV2DecoderList l = .ok s) :
    wellFormedList s = true := by
  cases l with
  | nil =>
    simp only [newV2DecoderList] at h
    simp only [Except.ok.injEq] at h
    subst h
    rfl
  | cons a t =>
    simp only [newV2DecoderList] at h
    cases ha : newV2Decoder a with
    | error e =>
      rw [ha] at h
      exact absurd h (by simp)
    | ok c =>
      rw [ha] at h
      cases ht : newV2DecoderList t with
      | error e =>
        rw [ht] at h
        exact absurd h (by simp)
      | ok s2 =>
        rw [ht] at h
        simp only [Except.ok.injEq] at h
        subst h
        simp only [wellFormedList, Bool.and_eq_true]
        exact ⟨wf_newV2 a c ha, wf_newV2List t s2 ht⟩
theorem wf_newV2Map (m : AV2Map) (s : CodecMap) (h : newV2DecoderMap m = .ok s) :
    wellFormedMap s = true := by
  cases m with
  | nil =>
    simp only [newV2DecoderMap] at h
    simp only [Except.ok.injEq] at h
    subst h
    rfl
  | cons key a t =>
    simp only [newV2DecoderMap] at h
    cases ha : newV2Decoder a with
    | error e =>
      rw [ha] at h
      exact absurd h (by simp)
    | ok c =>
      rw [ha] at h
      cases ht : newV2DecoderMap t with
      | error e =>
        rw [ht] at h
        exact absurd h (by simp)
      | ok s2 =>
        rw [ht] at h
        simp only [Except.ok.injEq] at h
        subst h
        simp only [wellFormedMap, Bool.and_eq_true]
        exact ⟨wf_newV2 a c ha, wf_newV2Map t s2 ht⟩
end

theorem asFloat_wf_isOk (c : Codec) (h : wellFormed c = true) : (AsFloat c).isOk = true := by
  obtain ⟨k, v⟩ := c
  cases k <;> cases v <;> first
    | ((simp only [wellFormed] at h) <;> exact Bool.noConfusion h)
    | rfl

theorem accessors_wf_isOk (c : Codec) (h : wellFormed c = true) :
    (AsBool c).isOk = true ∧ (AsString c).isOk = true ∧ (AsInt c).isOk = true ∧
    (AsUint c).isOk = true ∧ (AsFloat c).isOk = true ∧ (AsBytes c).isOk = true ∧
    (ListLen c).isOk = true ∧ (MapLen c).isOk = true ∧
    (∀ dest, (AsSpecial c dest).isOk = true) := by
  obtain ⟨k, v⟩ := c
  cases k <;> cases v <;> first
    | ((simp only [wellFormed] at h) <;> exact Bool.noConfusion h)
    | exact ⟨rfl, rfl, rfl, rfl, rfl, rfl, rfl, rfl, fun dest => by cases dest <;> rfl⟩

theorem asComplex_wf_isOk (c : Codec) (h : wellFormed c = true) :
    (AsComplex c).isOk = true := by
  obtain ⟨k, v⟩ := c
  cases k <;> cases v <;> first
    | ((simp only [wellFormed] at h) <;> exact Bool.noConfusion h)
    | rfl
    | skip
  case kslice.vlist l =>
    simp only [wellFormed] at h
    cases l with
    | nil => rfl
    | cons c0 t =>
      cases t with
      | nil => rfl
      | cons c1 t2 =>
        cases t2 with
        | cons c2 t3 => rfl
        | nil =>
          simp only [wellFormedList, Bool.and_eq_true] at h
          obtain ⟨h0, h1, _⟩ := h
          simp only [AsComplex]
          rw [if_neg (by decide : ¬ GoKind.kslice = GoKind.kcomplex128), if_pos trivial]
          cases hf0 : AsFloat c0 with
          | error e =>
            have hok := asFloat_wf_isOk c0 h0
            rw [hf0] at hok
            exact Bool.noConfusion hok
          | ok r0 =>
            obtain ⟨r, ok0⟩ := r0
            dsimp only
            cases ok0 with
            | false => rfl
            | true =>
              rw [if_neg (by decide : ¬ true = false)]
              cases hf1 : AsFloat c1 with
              | error e =>
                have hok := asFloat_wf_isOk c1 h1
                rw [hf1] at hok
                exact Bool.noConfusion hok
              | ok r1 =>
                obtain ⟨i, ok1⟩ := r1
                dsimp only
                cases ok1 with
                | false => rfl
                | true => rfl

/-- C10: every tree either wire decoder produces satisfies the
kind/payload consistency invariant `wellFormed` — the payload's
dynamic type matches the node's kind tag, recursively through lists
and maps — and on any `wellFormed` node every read accessor returns
without a failed type assertion (no panic), for every destination
type. -/
theorem c10_decoder_invariant :
    (∀ av c, newV1Decoder av = .ok c → wellFormed c = true) ∧
    (∀ av c, newV2Decoder av = .ok c → wellFormed c = true) ∧
    (∀ c, wellFormed c = true →
      (AsBool c).isOk = true ∧ (AsString c).isOk = true ∧ (AsInt c).isOk = true ∧
      (AsUint c).isOk = true ∧ (AsFloat c).isOk = true ∧ (AsComplex c).isOk = true ∧
      (AsBytes c).isOk = true ∧ (ListLen c).isOk = true ∧ (MapLen c).isOk = true ∧
      (∀ dest, (AsSpecial c dest).isOk = true)) := by
  refine ⟨wf_newV1, wf_newV2, fun c h => ?_⟩
  obtain ⟨h1, h2, h3, h4, h5, h6, h7, h8, h9⟩ := accessors_wf_isOk c h
  exact ⟨h1, h2, h3, h4, h5, asComplex_wf_isOk c h, h6, h7, h8, h9⟩

/-- Witness for C10 on the one-element wire list `[true]`. -/
theorem c10_decoder_invariant_witness :
    wellFormed (.node .kslice (.vlist (.cons (.node .kbool (.vbool true)) .nil))) = true ∧
    (AsString (.node .kslice (.vlist (.cons (.node .kbool (.vbool true)) .nil)))).isOk
      = true := by
  have hwf := c10_decoder_invariant.1 (av1L (.cons (av1BOOL true) .nil))
    (.node .kslice (.vlist (.cons (.node .kbool (.vbool true)) .nil))) (by rfl)
  exact ⟨hwf, (c10_decoder_invariant.2.2 _ hwf).2.1⟩

/-- C4: the narrowing guarantee that survives the float64 detour: a
wire number whose decimal text denotes an integer `z` with
`|z| ≤ 2^53` (the exactly-representable range of binary64) decodes to
the signed 64-bit node holding exactly `z`, whether the text was
written by the signed (`FormatInt`) or unsigned (`FormatUint`)
encoder; texts of larger integers pass through
`strconv.ParseFloat` and can decode to a *different* integer, so the
original claim's unrestricted int64 exactness does not hold. -/
theorem c4_numeric_narrowing (z : ℤ) (hz : |z| ≤ 2 ^ 53) :
    decodeNumber (String.mk (renderInt z)) = .ok (newDecoder (.vint z) .kint64) ∧
    (0 ≤ z → decodeNumber (String.mk (renderNat z.natAbs)) = .ok (newDecoder (.vint z) .kint64))
    := by
  refine ⟨decodeNumber_int_small z hz, fun h0 => ?_⟩
  have : renderNat z.natAbs = renderInt z := by
    unfold renderInt
    rw [if_neg (by omega)]
  rw [this]
  exact decodeNumber_int_small z hz

/-- Witness for C4 at `z = -42`. -/
theorem c4_numeric_narrowing_witness :
    decodeNumber (String.mk (renderInt (-42))) = .ok (newDecoder (.vint (-42)) .kint64) :=
  (c4_numeric_narrowing (-42) (by norm_num)).1

/-- Counterexample for C4's original form: the decimal integer text
`"9007199254740993"` (2^53 + 1, int64-representable) decodes to the
int64 node holding 9007199254740992, not 9007199254740993, because
`strconv.ParseFloat` rounds the text to the nearest binary64 value
before the narrowing ever sees it. -/
theorem c4_numeric_narrowing_counterexample :
    decodeNumber "9007199254740993" = .ok (newDecoder (.vint 9007199254740992) .kint64) ∧
    (9007199254740992 : ℤ) ≠ 9007199254740993 := by
  have hdata : ("9007199254740993" : String).data = renderInt ((9007199254740993 : ℤ)) := by
    with_unfolding_all decide
  have hr : roundF ((9007199254740993 : ℚ)) = ((9007199254740992 : ℚ)) := by
    have hne : ((9007199254740993 : ℚ)) ≠ 0 := by with_unfolding_all decide
    have hpos : ¬ ((9007199254740993 : ℚ)) < 0 := by with_unfolding_all decide
    have hE : floorLog2 (qAbs ((9007199254740993 : ℚ))) = 53 := by with_unfolding_all decide
    have hRHE : roundHalfEven (qAbs ((9007199254740993 : ℚ)) / powQ 2 1) = 4503599627370496
      := by with_unfolding_all decide
    unfold roundF
    rw [if_neg hne, if_neg hpos, hE]
    have hmax : max ((53 : ℤ) - 52) (-1074 : ℤ) = 1 := by decide
    rw [hmax, hRHE, pow2Q_eq]
    norm_num
  have h0 : parseDecimal ("9007199254740993" : String).data = some ((9007199254740993 : ℚ))
    := by
    rw [hdata, parseDecimal_renderInt]
    norm_num
  have h1 : parseFloat "9007199254740993" = .ok ((9007199254740992 : ℚ)) := by
    unfold parseFloat
    rw [h0]
    dsimp only
    rw [hr]
    rw [if_neg (by with_unfolding_all decide :
        ¬ powQ 2 1024 ≤ qAbs ((9007199254740992 : ℚ)))]
    rw [if_neg (by with_unfolding_all decide :
        ¬ (((9007199254740993 : ℚ)) ≠ 0 ∧ ((9007199254740992 : ℚ)) = 0))]
  refine ⟨?_, by norm_num⟩
  rw [decodeNumber_eval _ _ h1]
  have h2 : int64OfFloat ((9007199254740992 : ℚ)) = (9007199254740992 : ℤ) := by
    unfold int64OfFloat truncQ
    have hnum : ((9007199254740992 : ℚ)).num = 9007199254740992 := by
      with_unfolding_all decide
    have hden : ((9007199254740992 : ℚ)).den = 1 := by with_unfolding_all decide
    rw [hnum, hden]
    norm_num
  rw [h2]
  have h3 : roundF (((9007199254740992 : ℤ) : ℚ)) = ((9007199254740992 : ℚ)) := by
    rw [roundF_int_small 9007199254740992 (by norm_num)]
    norm_num
  rw [if_pos h3]

theorem formatRFC3339Nano_length_pos (t : GoTime) : ¬ (formatRFC3339Nano t).length = 0 := by
  unfold formatRFC3339Nano pad4
  simp [String.length]

theorem encodeSpecialTime_eq (t : GoTime) :
    EncodeSpecialTime t = .node .kstring (.vstr (formatRFC3339Nano t)) := by
  unfold EncodeSpecialTime EncodeString
  rw [if_neg (formatRFC3339Nano_length_pos t)]

/-- C1: encoding a `time.Time` then decoding through the v1 tree
decoder reproduces the same instant to nanosecond precision, delivered
to a timestamp destination by `AsSpecial` — but the same wire value
does NOT decode as an ordinary string: `newV1Decoder` eagerly
time-parses every wire string, re-tags it `reflect.Chan`, and the
string accessor then fails on it with `("", false)`, so the decode
target's type plays no role in whether the wire string is treated as a
timestamp (only the older `part_000` dual decoder behaves as the
original claim says). -/
theorem c1_timestamp_roundtrip (t : GoTime) (hv : validTime t = true) :
    asV1AttributeValue (EncodeSpecialTime t) = .ok (av1S (formatRFC3339Nano t)) ∧
    newV1Decoder (av1S (formatRFC3339Nano t)) = .ok (newDecoder (.vtime t) .kchan) ∧
    AsSpecial (newDecoder (.vtime t) .kchan) .goTime = .ok (true, Option.some t, Option.none) ∧
    AsString (newDecoder (.vtime t) .kchan) = .ok ("", false) ∧
    Dec2.asV1Special (av1S (formatRFC3339Nano t)) .goTime = (true, Option.some t, Option.none)
    := by
  have hfmt := parseRFC3339Nano_format t hv
  refine ⟨?_, ?_, rfl, rfl, ?_⟩
  · rw [encodeSpecialTime_eq]
    rfl
  · simp only [av1S, newV1Decoder]
    rw [hfmt]
  · unfold Dec2.asV1Special
    simp only [av1S, AV1.ssF, AV1.nsF, AV1.bsF, AV1.sF, Option.isSome_none, Bool.or_self,
      Bool.false_eq_true, if_false]
    rw [hfmt]

/-- Counterexample for C1's original form: the wire string
`"2020-01-01T00:00:00Z"` decodes (under the v1 tree decoder) to a
timestamp-tagged node even though the destination may be a plain
string, and the string accessor on that node fails instead of
returning the RFC3339Nano text. -/
theorem c1_timestamp_roundtrip_counterexample :
    newV1Decoder (av1S "2020-01-01T00:00:00Z")
      = .ok (newDecoder (.vtime ⟨2020, 1, 1, 0, 0, 0, 0, 0⟩) .kchan) ∧
    AsString (newDecoder (.vtime ⟨2020, 1, 1, 0, 0, 0, 0, 0⟩) .kchan) = .ok ("", false) ∧
    (("", false) : String × Bool) ≠ ("2020-01-01T00:00:00Z", true) := by
  have hfmt : formatRFC3339Nano (⟨2020, 1, 1, 0, 0, 0, 0, 0⟩ : GoTime)
      = "2020-01-01T00:00:00Z" := by with_unfolding_all decide
  have hp := parseRFC3339Nano_format (⟨2020, 1, 1, 0, 0, 0, 0, 0⟩ : GoTime) (by decide)
  rw [hfmt] at hp
  refine ⟨?_, rfl, by decide⟩
  simp only [av1S, newV1Decoder]
  rw [hp]

/-- Witness for C1 at the instant 2020-01-02T03:04:05.000000006+02:00. -/
theorem c1_timestamp_roundtrip_witness :
    validTime ⟨2020, 1, 2, 3, 4, 5, 6, 120⟩ = true ∧
    AsSpecial (newDecoder (.vtime ⟨2020, 1, 2, 3, 4, 5, 6, 120⟩) .kchan) .goTime
      = .ok (true, Option.some ⟨2020, 1, 2, 3, 4, 5, 6, 120⟩, Option.none) :=
  ⟨by decide, (c1_timestamp_roundtrip ⟨2020, 1, 2, 3, 4, 5, 6, 120⟩ (by decide)).2.2.1⟩

/-- C2: cross-variant equivalence fails: the encoder-produced tree
holding the string `"2020-01-01T00:00:00Z"` renders to the `S` wire
value in both variants, but the v1 decoder time-parses it into a
`reflect.Chan` timestamp node while the v2 decoder (which has no
`time.Parse` attempt) returns a `reflect.String` node, so the two
wire variants decode the same encoder output to different
tagged-value trees. -/
theorem c2_cross_variant_divergence :
    asV1AttributeValue (EncodeString "2020-01-01T00:00:00Z")
      = .ok (av1S "2020-01-01T00:00:00Z") ∧
    asV2AttributeValue (EncodeString "2020-01-01T00:00:00Z")
      = .ok (.avS "2020-01-01T00:00:00Z") ∧
    newV1Decoder (av1S "2020-01-01T00:00:00Z")
      = .ok (newDecoder (.vtime ⟨2020, 1, 1, 0, 0, 0, 0, 0⟩) .kchan) ∧
    newV2Decoder (.avS "2020-01-01T00:00:00Z")
      = .ok (newDecoder (.vstr "2020-01-01T00:00:00Z") .kstring) ∧
    newDecoder (.vtime ⟨2020, 1, 1, 0, 0, 0, 0, 0⟩) .kchan
      ≠ newDecoder (.vstr "2020-01-01T00:00:00Z") .kstring := by
  have hfmt : formatRFC3339Nano (⟨2020, 1, 1, 0, 0, 0, 0, 0⟩ : GoTime)
      = "2020-01-01T00:00:00Z" := by with_unfolding_all decide
  have hp := parseRFC3339Nano_format (⟨2020, 1, 1, 0, 0, 0, 0, 0⟩ : GoTime) (by decide)
  rw [hfmt] at hp
  refine ⟨rfl, rfl, ?_, rfl, by decide⟩
  simp only [av1S, newV1Decoder]
  rw [hp]

/-- C6: encoding a complex128 value `(re, im)` (any finite binary64
parts) renders, in wire variant 1, to a list of exactly two wire
numbers holding the shortest round-tripping decimal texts of the real
and imaginary parts; decoding that wire value gives a two-element list
node whose parts read back as exactly `re` and `im` through the float
accessor, whose complex accessor returns exactly `(re, im)`, and whose
list length is 2 (the generic-destination view of the value). -/
theorem c6_complex_roundtrip (re im : ℚ) (hre : IsFloat64 re) (him : IsFloat64 im) :
    asV1AttributeValue (EncodeComplex re im)
      = .ok (av1L (.cons (av1N (formatFloat re)) (.cons (av1N (formatFloat im)) .nil))) ∧
    ∃ c0 c1,
      newV1Decoder (av1L (.cons (av1N (formatFloat re)) (.cons (av1N (formatFloat im)) .nil)))
        = .ok (.node .kslice (.vlist (.cons c0 (.cons c1 .nil)))) ∧
      AsFloat c0 = .ok (re, true) ∧
      AsFloat c1 = .ok (im, true) ∧
      AsComplex (.node .kslice (.vlist (.cons c0 (.cons c1 .nil)))) = .ok ((re, im), true) ∧
      ListLen (.node .kslice (.vlist (.cons c0 (.cons c1 .nil)))) = .ok (2, true) := by
  obtain ⟨c0, hd0, hf0, _⟩ :=
    decodeNumber_asFloat (formatFloat re) re (parseFloat_formatFloat re hre)
  obtain ⟨c1, hd1, hf1, _⟩ :=
    decodeNumber_asFloat (formatFloat im) im (parseFloat_formatFloat im him)
  refine ⟨rfl, c0, c1, ?_, hf0, hf1, ?_, rfl⟩
  · simp only [av1L, av1N, newV1Decoder, newV1DecoderList]
    rw [hd0]
    dsimp only
    rw [hd1]
    rfl
  · simp only [AsComplex]
    rw [if_neg (by decide : ¬ GoKind.kslice = GoKind.kcomplex128), if_pos trivial]
    rw [hf0]
    dsimp only
    rw [if_neg (by decide : ¬ true = false)]
    rw [hf1]
    dsimp only
    rw [if_neg (by decide : ¬ true = false)]

/-- Witness for C6 at the complex value `complex(12, 37)`. -/
theorem c6_complex_roundtrip_witness :
    ∃ c0 c1,
      newV1Decoder (av1L (.cons (av1N (formatFloat 12)) (.cons (av1N (formatFloat 37)) .nil)))
        = .ok (.node .kslice (.vlist (.cons c0 (.cons c1 .nil)))) ∧
      AsFloat c0 = .ok (12, true) ∧
      AsFloat c1 = .ok (37, true) ∧
      AsComplex (.node .kslice (.vlist (.cons c0 (.cons c1 .nil)))) = .ok ((12, 37), true) ∧
      ListLen (.node .kslice (.vlist (.cons c0 (.cons c1 .nil)))) = .ok (2, true) :=
  (c6_complex_roundtrip 12 37 (by with_unfolding_all decide)
    (by with_unfolding_all decide)).2
